import Mathlib

/-!
Verification of the SWORD geometry-reconstruction and facc-correction
maintenance algorithms, shallowly embedded from the Python sources:

* `scripts/visualization/generate_facc_report_figures.py`
  (`fig4_pava_example`, the stack-based PAVA isotonic regression);
* `scripts/maintenance/rebuild_reach_geometry.py`
  (`build_indexes`, `find_common_points`, `build_geometries`,
  `snap_endpoints`, `process_region`);
* `scripts/maintenance/revert_oc_reach_split.py`
  (`precondition_checks`, `execute`).

Machine floating-point values are modelled as exact rationals, and the
external `geopy.distance.geodesic` collaborator is modelled as an abstract
distance function passed as a parameter.
-/

/-! ## Stack-based PAVA (fig4_pava_example, generate_facc_report_figures.py:399-413)

The Python loop keeps `blocks`, a stack of `[sum, count, start, end]`
records; after pushing each raw value as a unit block it repeatedly merges
the top two blocks while the second-to-last block's mean exceeds the last
block's mean.  `Block.stop` stands for the Python field `end` (a Lean
keyword).  The while loop pops and re-tests against the next block down,
which is exactly structural recursion on the part of the stack below the
pushed block (`mergeInto`). -/

structure Block where
  sum : ℚ
  count : ℕ
  start : ℕ
  stop : ℕ
deriving Repr, DecidableEq

def Block.mean (b : Block) : ℚ := b.sum / b.count

/-- Backward-merge loop: `while len(blocks) > 1: if prev_mean <= curr_mean:
break; merge`.  `curr` is the block on top of the stack, the list argument
is the rest of the stack (top first). -/
def mergeInto (curr : Block) : List Block → List Block
  | [] => [curr]
  | prev :: rest =>
    if prev.sum / prev.count ≤ curr.sum / curr.count then curr :: prev :: rest
    else mergeInto ⟨prev.sum + curr.sum, prev.count + curr.count, prev.start, curr.stop⟩ rest

/-- The `for i in range(n)` loop: push `[base[i], 1, i, i]` and run the
merge loop. -/
def pavaBlocksAux : List Block → ℕ → List ℚ → List Block
  | stack, _, [] => stack
  | stack, i, v :: rest => pavaBlocksAux (mergeInto ⟨v, 1, i, i⟩ stack) (i + 1) rest

def pavaBlocks (base : List ℚ) : List Block := pavaBlocksAux [] 0 base

/-- Final write-out `pava[start:end+1] = s / cnt`: each block contributes
`count` copies of its mean; the stack is top-first, so the expansion of the
rest of the stack comes first.  (That this agrees with indexing by the
`start`/`stop` ranges is proved below from the tiling invariant.) -/
def pavaExpand : List Block → List ℚ
  | [] => []
  | b :: rest => pavaExpand rest ++ List.replicate b.count (b.sum / b.count)

def pava (base : List ℚ) : List ℚ := pavaExpand (pavaBlocks base)

/-! ### Stack invariants -/

/-- The stack (top first) tiles `[0, i)` with contiguous blocks whose
`count` and `sum` fields record the length and raw-value sum of their
index range. -/
def StackInv (base : List ℚ) : List Block → ℕ → Prop
  | [], i => i = 0
  | b :: rest, i =>
      b.stop + 1 = i ∧ b.start ≤ b.stop ∧ b.count = b.stop + 1 - b.start ∧
      b.sum = ∑ j ∈ Finset.Icc b.start b.stop, base.getD j 0 ∧
      StackInv base rest b.start

/-- Means are non-decreasing from the bottom of the stack to the top. -/
def SortedStack (stack : List Block) : Prop :=
  List.Chain' (fun top below => below.sum / (below.count : ℚ) ≤ top.sum / (top.count : ℚ)) stack

theorem stackInv_stop_lt {base : List ℚ} :
    ∀ {stack : List Block} {i : ℕ}, StackInv base stack i →
      ∀ b ∈ stack, b.stop < i := by
  intro stack
  induction stack with
  | nil => intro i _ b hb; cases hb
  | cons hd tl ih =>
      intro i hinv b hb
      obtain ⟨h1, h2, _, _, htl⟩ := hinv
      rcases List.mem_cons.mp hb with hb | hb
      · subst hb; omega
      · have := ih htl b hb
        omega

theorem mergeInto_inv {base : List ℚ} :
    ∀ {rest : List Block} {curr : Block} {i : ℕ},
      StackInv base (curr :: rest) i → StackInv base (mergeInto curr rest) i := by
  intro rest
  induction rest with
  | nil =>
      intro curr i hinv
      exact hinv
  | cons prev rest' ih =>
      intro curr i hinv
      obtain ⟨hstop, hle, hcount, hsum, hprev⟩ := hinv
      obtain ⟨pstop, ple, pcount, psum, prest⟩ := hprev
      rw [mergeInto]
      split
      · exact ⟨hstop, hle, hcount, hsum, pstop, ple, pcount, psum, prest⟩
      · apply ih
        have hunion :
            (∑ j ∈ Finset.Icc prev.start prev.stop, base.getD j 0) +
              (∑ j ∈ Finset.Icc curr.start curr.stop, base.getD j 0) =
            ∑ j ∈ Finset.Icc prev.start curr.stop, base.getD j 0 := by
          rw [← Nat.Ico_succ_right, ← Nat.Ico_succ_right, ← Nat.Ico_succ_right]
          have h1 : prev.start ≤ prev.stop + 1 := by omega
          have h2 : prev.stop + 1 ≤ curr.stop + 1 := by omega
          have h3 : curr.start = prev.stop + 1 := by omega
          rw [h3]
          exact Finset.sum_Ico_consecutive _ h1 h2
        refine ⟨?_, ?_, ?_, ?_, prest⟩
        · dsimp only
          omega
        · dsimp only
          omega
        · dsimp only
          omega
        · dsimp only
          rw [psum, hsum]
          exact hunion

theorem mergeInto_sorted :
    ∀ {rest : List Block} {curr : Block},
      SortedStack rest → SortedStack (mergeInto curr rest) := by
  intro rest
  induction rest with
  | nil =>
      intro curr _
      simp [mergeInto, SortedStack]
  | cons prev rest' ih =>
      intro curr hs
      rw [mergeInto]
      split
      · rename_i h
        exact List.Chain'.cons h hs
      · exact ih (List.Chain'.tail hs)

theorem pavaBlocksAux_inv {base : List ℚ} :
    ∀ {vs : List ℚ} {stack : List Block} {i : ℕ},
      StackInv base stack i → base.drop i = vs → i ≤ base.length →
      StackInv base (pavaBlocksAux stack i vs) base.length ∧
      (SortedStack stack → SortedStack (pavaBlocksAux stack i vs)) := by
  intro vs
  induction vs with
  | nil =>
      intro stack i hinv hdrop hle
      have hlen : base.length ≤ i := by
        rw [← List.drop_eq_nil_iff, hdrop]
      have : i = base.length := le_antisymm hle hlen
      subst this
      exact ⟨hinv, fun hs => hs⟩
  | cons v rest ih =>
      intro stack i hinv hdrop hle
      have hi : i < base.length := by
        by_contra h
        push_neg at h
        rw [List.drop_eq_nil_iff.mpr h] at hdrop
        exact (List.cons_ne_nil v rest) hdrop.symm
      have hsome : base[i]? = some v := by
        rw [← List.head?_drop, hdrop]
        rfl
      have hget : base.getD i 0 = v := by
        simp [List.getD_eq_getElem?_getD, hsome]
      have hdrop' : base.drop (i + 1) = rest := by
        have h1 : (base.drop i).drop 1 = base.drop (i + 1) := List.drop_drop 1 i base
        rw [hdrop] at h1
        simpa using h1.symm
      have hunit : StackInv base (⟨v, 1, i, i⟩ :: stack) (i + 1) := by
        refine ⟨rfl, le_refl i, ?_, ?_, hinv⟩
        · dsimp only
          omega
        · dsimp only
          rw [Finset.Icc_self, Finset.sum_singleton, hget]
      have hinv' := mergeInto_inv hunit
      rw [pavaBlocksAux]
      exact ⟨(ih hinv' hdrop' hi).1,
        fun hs => (ih hinv' hdrop' hi).2 (mergeInto_sorted hs)⟩

theorem pavaBlocks_inv (base : List ℚ) :
    StackInv base (pavaBlocks base) base.length ∧ SortedStack (pavaBlocks base) := by
  have h := @pavaBlocksAux_inv base base [] 0
    (by simp [StackInv]) (by simp) (by simp)
  exact ⟨h.1, h.2 (by simp [SortedStack])⟩

/-! ### Expansion lemmas -/

theorem pavaExpand_length {base : List ℚ} :
    ∀ {stack : List Block} {i : ℕ}, StackInv base stack i →
      (pavaExpand stack).length = i := by
  intro stack
  induction stack with
  | nil =>
      intro i h
      simpa [pavaExpand] using h.symm
  | cons b rest ih =>
      intro i h
      obtain ⟨h1, h2, h3, _, htl⟩ := h
      simp only [pavaExpand, List.length_append, List.length_replicate, ih htl]
      omega

theorem pavaExpand_getD {base : List ℚ} :
    ∀ {stack : List Block} {i : ℕ}, StackInv base stack i →
      ∀ b ∈ stack, ∀ j, b.start ≤ j → j ≤ b.stop →
        (pavaExpand stack).getD j 0 = b.sum / (b.count : ℚ) := by
  intro stack
  induction stack with
  | nil => intro i _ b hb; cases hb
  | cons hd tl ih =>
      intro i hinv b hb j hj1 hj2
      obtain ⟨h1, h2, h3, h4, htl⟩ := hinv
      have hlen : (pavaExpand tl).length = hd.start := pavaExpand_length htl
      rcases List.mem_cons.mp hb with hb | hb
      · rw [hb] at hj1 hj2 ⊢
        rw [pavaExpand, List.getD_append_right _ _ _ _ (by omega), hlen]
        have hlt : j - hd.start < hd.count := by omega
        rw [List.getD_eq_getElem _ _ (by simpa using hlt)]
        simp
      · have hblt : b.stop < hd.start := stackInv_stop_lt htl b hb
        rw [pavaExpand, List.getD_append _ _ _ _ (by omega)]
        exact ih htl b hb j hj1 hj2

theorem pavaExpand_le :
    ∀ {stack : List Block}, SortedStack stack →
      ∀ b, stack.head? = some b → ∀ x ∈ pavaExpand stack,
        x ≤ b.sum / (b.count : ℚ) := by
  intro stack
  induction stack with
  | nil =>
      intro _ b hb
      simp at hb
  | cons hd tl ih =>
      intro hs b hb x hx
      rw [List.head?_cons, Option.some_inj] at hb
      subst hb
      rw [pavaExpand] at hx
      rcases List.mem_append.mp hx with hx | hx
      · cases tl with
        | nil => simp [pavaExpand] at hx
        | cons p tl' =>
            have hrel : p.sum / (p.count : ℚ) ≤ hd.sum / (hd.count : ℚ) :=
              (List.chain'_cons.mp hs).1
            exact le_trans (ih (List.Chain'.tail hs) p rfl x hx) hrel
      · rw [List.eq_of_mem_replicate hx]

theorem pavaExpand_sorted :
    ∀ {stack : List Block}, SortedStack stack →
      List.Chain' (· ≤ ·) (pavaExpand stack) := by
  intro stack
  induction stack with
  | nil =>
      intro _
      simp [pavaExpand]
  | cons hd tl ih =>
      intro hs
      rw [pavaExpand]
      refine List.Chain'.append (ih (List.Chain'.tail hs))
        (List.chain'_replicate_of_rel _ (le_refl _)) ?_
      intro x hx y hy
      have hxmem : x ∈ pavaExpand tl := List.mem_of_mem_getLast? hx
      have hyval : y = hd.sum / (hd.count : ℚ) :=
        List.eq_of_mem_replicate (List.mem_of_mem_head? hy)
      cases tl with
      | nil => simp [pavaExpand] at hxmem
      | cons p tl' =>
          have hrel : p.sum / (p.count : ℚ) ≤ hd.sum / (hd.count : ℚ) :=
            (List.chain'_cons.mp hs).1
          rw [hyval]
          exact le_trans (pavaExpand_le (List.Chain'.tail hs) p rfl x hxmem) hrel

/-! ### Per-block facts and output facts -/

theorem stackInv_mem {base : List ℚ} :
    ∀ {stack : List Block} {i : ℕ}, StackInv base stack i →
      ∀ b ∈ stack, b.start ≤ b.stop ∧ b.count = b.stop + 1 - b.start ∧
        b.sum = ∑ j ∈ Finset.Icc b.start b.stop, base.getD j 0 := by
  intro stack
  induction stack with
  | nil => intro i _ b hb; cases hb
  | cons hd tl ih =>
      intro i hinv b hb
      obtain ⟨h1, h2, h3, h4, htl⟩ := hinv
      rcases List.mem_cons.mp hb with hb | hb
      · subst hb; exact ⟨h2, h3, h4⟩
      · exact ih htl b hb

theorem pava_chain' (base : List ℚ) : List.Chain' (· ≤ ·) (pava base) :=
  pavaExpand_sorted (pavaBlocks_inv base).2

theorem pava_length (base : List ℚ) : (pava base).length = base.length :=
  pavaExpand_length (pavaBlocks_inv base).1

/-! ### Sorted input: no merges, fixed point -/

theorem mergeInto_unit_of_le {v : ℚ} {i : ℕ} :
    ∀ {stack : List Block},
      (∀ b, stack.head? = some b → b.sum / (b.count : ℚ) ≤ v) →
      mergeInto ⟨v, 1, i, i⟩ stack = ⟨v, 1, i, i⟩ :: stack := by
  intro stack hlink
  cases stack with
  | nil => rfl
  | cons prev rest =>
      rw [mergeInto, if_pos]
      simpa using hlink prev rfl

theorem pavaBlocksAux_sorted_eq :
    ∀ (vs : List ℚ) (stack : List Block) (i : ℕ),
      List.Chain' (· ≤ ·) vs →
      (∀ b, stack.head? = some b → ∀ v, vs.head? = some v →
        b.sum / (b.count : ℚ) ≤ v) →
      pavaBlocksAux stack i vs =
        ((List.range vs.length).map
          (fun k => (⟨vs.getD k 0, 1, i + k, i + k⟩ : Block))).reverse ++ stack := by
  intro vs
  induction vs with
  | nil =>
      intro stack i _ _
      simp [pavaBlocksAux]
  | cons v rest ih =>
      intro stack i hchain hlink
      rw [pavaBlocksAux]
      rw [mergeInto_unit_of_le (fun b hb => hlink b hb v rfl)]
      have hlink2 : ∀ b, ((⟨v, 1, i, i⟩ : Block) :: stack).head? = some b →
          ∀ w, rest.head? = some w → b.sum / (b.count : ℚ) ≤ w := by
        intro b hb w hw
        rw [List.head?_cons, Option.some_inj] at hb
        rcases rest with _ | ⟨r0, rest'⟩
        · simp at hw
        · rw [List.head?_cons, Option.some_inj] at hw
          rw [← hb, ← hw]
          simpa using (List.chain'_cons.mp hchain).1
      rw [ih (⟨v, 1, i, i⟩ :: stack) (i + 1) (List.Chain'.tail hchain) hlink2]
      rw [List.length_cons, List.range_succ_eq_map]
      simp only [List.map_cons, List.map_map, List.reverse_cons]
      rw [List.append_assoc]
      simp only [List.singleton_append, List.getD_cons_zero, Nat.add_zero]
      congr 1
      congr 1
      apply List.map_congr_left
      intro k _
      simp only [Function.comp_apply, List.getD_cons_succ, Block.mk.injEq]
      refine ⟨trivial, trivial, by omega, by omega⟩

theorem pavaBlocks_sorted_eq (base : List ℚ) (h : List.Chain' (· ≤ ·) base) :
    pavaBlocks base =
      ((List.range base.length).map
        (fun k => (⟨base.getD k 0, 1, k, k⟩ : Block))).reverse := by
  have := pavaBlocksAux_sorted_eq base [] 0 h (by intro b hb; simp at hb)
  simpa [pavaBlocks] using this

theorem pavaExpand_append (l₁ l₂ : List Block) :
    pavaExpand (l₁ ++ l₂) = pavaExpand l₂ ++ pavaExpand l₁ := by
  induction l₁ with
  | nil => simp [pavaExpand]
  | cons b l₁ ih =>
      rw [List.cons_append, pavaExpand, ih, pavaExpand, List.append_assoc]

theorem pavaExpand_reverse_units (n : ℕ) (f : ℕ → ℚ) :
    pavaExpand (((List.range n).map
      (fun k => (⟨f k, 1, k, k⟩ : Block))).reverse) =
    (List.range n).map f := by
  induction n with
  | zero => simp [pavaExpand]
  | succ m ih =>
      rw [List.range_succ]
      simp only [List.map_append, List.reverse_append]
      rw [pavaExpand_append]
      simp only [List.map_cons, List.map_nil, List.reverse_cons, List.reverse_nil,
        List.nil_append]
      rw [ih]
      simp [pavaExpand]

theorem map_getD_range (l : List ℚ) :
    (List.range l.length).map (fun k => l.getD k 0) = l := by
  apply List.ext_getElem (by simp)
  intro i h1 h2
  simp [List.getD_eq_getElem?_getD, List.getElem?_eq_getElem h2]

theorem pava_fixed_of_sorted (base : List ℚ) (h : List.Chain' (· ≤ ·) base) :
    pava base = base := by
  rw [pava, pavaBlocks_sorted_eq base h, pavaExpand_reverse_units, map_getD_range]

/-! ### Claim theorems: PAVA -/

/-- C1: the stack-based PAVA yields, for every raw facc sequence,
per-position corrected values that are non-decreasing, one output per
input position, and every pooled block carries the sum and length of its
raw index range, so each corrected value inside a block equals the
arithmetic mean of the raw values pooled into that block; in particular
the chain [100, 80, 150] is corrected to [90, 90, 150]. -/
theorem pava_isotonic_blockmeans :
    (∀ base : List ℚ,
      List.Chain' (· ≤ ·) (pava base) ∧
      (pava base).length = base.length ∧
      ∀ b ∈ pavaBlocks base,
        b.start ≤ b.stop ∧ b.stop < base.length ∧
        b.count = b.stop + 1 - b.start ∧
        b.sum = ∑ j ∈ Finset.Icc b.start b.stop, base.getD j 0 ∧
        ∀ j, b.start ≤ j → j ≤ b.stop →
          (pava base).getD j 0 = b.sum / (b.count : ℚ)) ∧
    pava [100, 80, 150] = [90, 90, 150] := by
  constructor
  · intro base
    obtain ⟨hinv, hsort⟩ := pavaBlocks_inv base
    refine ⟨pava_chain' base, pava_length base, ?_⟩
    intro b hb
    obtain ⟨hb1, hb2, hb3⟩ := stackInv_mem hinv b hb
    exact ⟨hb1, stackInv_stop_lt hinv b hb, hb2, hb3,
      fun j hj1 hj2 => pavaExpand_getD hinv b hb j hj1 hj2⟩
  · norm_num [pava, pavaBlocks, pavaBlocksAux, mergeInto, pavaExpand,
      List.replicate]

/-- Witness for C1: instantiated at the spec's scenario [100, 80, 150],
reading position 0 out of the pooled block {0,1} of mean 90, and the
monotone chain fact. -/
theorem pava_isotonic_blockmeans_witness :
    (pava [100, 80, 150]).getD 0 0 = 90 ∧
    List.Chain' (· ≤ ·) (pava [100, 80, 150]) := by
  have h := pava_isotonic_blockmeans
  have hmem : (⟨180, 2, 0, 1⟩ : Block) ∈ pavaBlocks [100, 80, 150] := by
    norm_num [pavaBlocks, pavaBlocksAux, mergeInto]
  have hval := ((h.1 [100, 80, 150]).2.2 ⟨180, 2, 0, 1⟩ hmem).2.2.2.2
    0 (by norm_num) (by norm_num)
  refine ⟨?_, (h.1 [100, 80, 150]).1⟩
  rw [hval]
  norm_num

/-- C2: PAVA is idempotent: on an already non-decreasing sequence the
stack never merges (every final block is a unit block) and the output
equals the input; consequently PAVA composed with PAVA equals PAVA. -/
theorem pava_idempotent :
    (∀ base : List ℚ, List.Chain' (· ≤ ·) base →
      pava base = base ∧
      pavaBlocks base =
        ((List.range base.length).map
          (fun k => (⟨base.getD k 0, 1, k, k⟩ : Block))).reverse) ∧
    ∀ base : List ℚ, pava (pava base) = pava base := by
  constructor
  · intro base h
    exact ⟨pava_fixed_of_sorted base h, pavaBlocks_sorted_eq base h⟩
  · intro base
    exact pava_fixed_of_sorted (pava base) (pava_chain' base)

/-- Witness for C2: the already-corrected chain [90, 90, 150] is a fixed
point with three unit blocks. -/
theorem pava_idempotent_witness :
    pava [90, 90, 150] = [90, 90, 150] ∧
    pavaBlocks [90, 90, 150] =
      [⟨150, 1, 2, 2⟩, ⟨90, 1, 1, 1⟩, ⟨90, 1, 0, 0⟩] := by
  have h := pava_idempotent.1 [90, 90, 150] (by norm_num)
  refine ⟨h.1, ?_⟩
  rw [h.2]
  norm_num [List.range_succ]

/-! ## Common-point dominance test (find_common_points, rebuild_reach_geometry.py:226-244)

The classifier looks up `facc`, `wse`, `width` per reach with a default of
-9999 for reaches missing from the attribute table, computes
`np.where(v == np.max(v))` / `np.where(v == np.min(v))` index sets, and
marks the point common through the three-tier `if/elif/elif/else` cascade.
Attribute tables are modelled as partial maps `ℤ → Option ℚ`. -/

def listMax : List ℚ → ℚ
  | [] => 0
  | x :: xs => xs.foldl max x

def listMin : List ℚ → ℚ
  | [] => 0
  | x :: xs => xs.foldl min x

/-- Indices attaining the maximum, ascending (`np.where(v == np.max(v))[0]`). -/
def maxIdxs (l : List ℚ) : List ℕ :=
  (List.range l.length).filter (fun i => l.getD i 0 = listMax l)

/-- Indices attaining the minimum, ascending (`np.where(v == np.min(v))[0]`). -/
def minIdxs (l : List ℚ) : List ℕ :=
  (List.range l.length).filter (fun i => l.getD i 0 = listMin l)

/-- Per-reach attribute vector with the -9999 sentinel for missing reaches
(`reach_facc.get(int(r), -9999.0)`). -/
def attrValues (attr : ℤ → Option ℚ) (nghs : List ℤ) : List ℚ :=
  nghs.map (fun r => (attr r).getD (-9999))

/-- Dominance cascade of `find_common_points`: tier 1 unique max facc,
tier 2 unique min wse, tier 3 unique max width, fully ambiguous ⇒ common.
The candidate at index 0 is the reach whose primary ownership includes the
point. -/
def dominanceCommon (nghs : List ℤ) (facc wse wth : ℤ → Option ℚ) : Bool :=
  let f := maxIdxs (attrValues facc nghs)
  let h := minIdxs (attrValues wse nghs)
  let w := maxIdxs (attrValues wth nghs)
  if f.length = 1 then decide (f.getD 0 0 = 0)
  else if h.length = 1 then decide (h.getD 0 0 = 0)
  else if w.length = 1 then decide (w.getD 0 0 = 0)
  else true

/-! ### Spec-side dominance predicates -/

/-- The value at index `i` strictly dominates every other entry. -/
def UniqueMaxAt (l : List ℚ) (i : ℕ) : Prop :=
  i < l.length ∧ ∀ j, j < l.length → j ≠ i → l.getD j 0 < l.getD i 0

def HasUniqueMax (l : List ℚ) : Prop := ∃ i, UniqueMaxAt l i

def UniqueMinAt (l : List ℚ) (i : ℕ) : Prop :=
  i < l.length ∧ ∀ j, j < l.length → j ≠ i → l.getD i 0 < l.getD j 0

def HasUniqueMin (l : List ℚ) : Prop := ∃ i, UniqueMinAt l i

theorem le_listMax : ∀ (l : List ℚ), ∀ x ∈ l, x ≤ listMax l := by
  have haux : ∀ (xs : List ℚ) (a : ℚ),
      a ≤ xs.foldl max a ∧ ∀ x ∈ xs, x ≤ xs.foldl max a := by
    intro xs
    induction xs with
    | nil => intro a; simp
    | cons y ys ih =>
        intro a
        refine ⟨?_, ?_⟩
        · exact le_trans (le_max_left a y) (ih (max a y)).1
        · intro x hx
          rcases List.mem_cons.mp hx with rfl | hx
          · exact le_trans (le_max_right a x) (ih (max a x)).1
          · exact (ih (max a y)).2 x hx
  intro l x hx
  cases l with
  | nil => cases hx
  | cons y ys =>
      rcases List.mem_cons.mp hx with rfl | hx
      · exact (haux ys x).1
      · exact (haux ys y).2 x hx

theorem listMax_mem : ∀ (l : List ℚ), l ≠ [] → listMax l ∈ l := by
  have haux : ∀ (xs : List ℚ) (a : ℚ), xs.foldl max a = a ∨ xs.foldl max a ∈ xs := by
    intro xs
    induction xs with
    | nil => intro a; left; rfl
    | cons y ys ih =>
        intro a
        rcases ih (max a y) with h | h
        · rcases max_cases a y with ⟨hm, _⟩ | ⟨hm, _⟩
          · left; rw [List.foldl_cons, h, hm]
          · right; rw [List.foldl_cons, h, hm]; exact List.mem_cons_self y ys
        · right; exact List.mem_cons_of_mem y h
  intro l hne
  cases l with
  | nil => exact absurd rfl hne
  | cons y ys =>
      rcases haux ys y with h | h
      · rw [listMax, h]; exact List.mem_cons_self y ys
      · exact List.mem_cons_of_mem y h

theorem listMin_le : ∀ (l : List ℚ), ∀ x ∈ l, listMin l ≤ x := by
  have haux : ∀ (xs : List ℚ) (a : ℚ),
      xs.foldl min a ≤ a ∧ ∀ x ∈ xs, xs.foldl min a ≤ x := by
    intro xs
    induction xs with
    | nil => intro a; simp
    | cons y ys ih =>
        intro a
        refine ⟨?_, ?_⟩
        · exact le_trans (ih (min a y)).1 (min_le_left a y)
        · intro x hx
          rcases List.mem_cons.mp hx with rfl | hx
          · exact le_trans (ih (min a x)).1 (min_le_right a x)
          · exact (ih (min a y)).2 x hx
  intro l x hx
  cases l with
  | nil => cases hx
  | cons y ys =>
      rcases List.mem_cons.mp hx with rfl | hx
      · exact (haux ys x).1
      · exact (haux ys y).2 x hx

theorem listMin_mem : ∀ (l : List ℚ), l ≠ [] → listMin l ∈ l := by
  have haux : ∀ (xs : List ℚ) (a : ℚ), xs.foldl min a = a ∨ xs.foldl min a ∈ xs := by
    intro xs
    induction xs with
    | nil => intro a; left; rfl
    | cons y ys ih =>
        intro a
        rcases ih (min a y) with h | h
        · rcases min_cases a y with ⟨hm, _⟩ | ⟨hm, _⟩
          · left; rw [List.foldl_cons, h, hm]
          · right; rw [List.foldl_cons, h, hm]; exact List.mem_cons_self y ys
        · right; exact List.mem_cons_of_mem y h
  intro l hne
  cases l with
  | nil => exact absurd rfl hne
  | cons y ys =>
      rcases haux ys y with h | h
      · rw [listMin, h]; exact List.mem_cons_self y ys
      · exact List.mem_cons_of_mem y h

theorem mem_maxIdxs {l : List ℚ} {i : ℕ} :
    i ∈ maxIdxs l ↔ i < l.length ∧ l.getD i 0 = listMax l := by
  simp [maxIdxs, List.mem_filter, List.mem_range]

theorem mem_minIdxs {l : List ℚ} {i : ℕ} :
    i ∈ minIdxs l ↔ i < l.length ∧ l.getD i 0 = listMin l := by
  simp [minIdxs, List.mem_filter, List.mem_range]

theorem nodup_maxIdxs (l : List ℚ) : (maxIdxs l).Nodup :=
  List.Nodup.filter _ (List.nodup_range _)

theorem nodup_minIdxs (l : List ℚ) : (minIdxs l).Nodup :=
  List.Nodup.filter _ (List.nodup_range _)

theorem nodup_mem_singleton {l : List ℕ} {b : ℕ}
    (hnd : l.Nodup) (h : ∀ a, a ∈ l ↔ a = b) : l = [b] := by
  cases l with
  | nil =>
      exact absurd ((h b).mpr rfl) (List.not_mem_nil b)
  | cons x xs =>
      have hx : x = b := (h x).mp (List.mem_cons_self x xs)
      subst hx
      have hxs : xs = [] := by
        cases xs with
        | nil => rfl
        | cons y ys =>
            have hy : y = x := (h y).mp (List.mem_cons_of_mem x (List.mem_cons_self y ys))
            subst hy
            exact absurd (List.mem_cons_self y ys) (List.nodup_cons.mp hnd).1
      rw [hxs]

theorem getElem_eq_getD {l : List ℚ} {i : ℕ} (h : i < l.length) :
    l[i] = l.getD i 0 := by
  rw [List.getD_eq_getElem l 0 h]

theorem maxIdxs_eq_singleton_iff {l : List ℚ} {i : ℕ} (hne : l ≠ []) :
    maxIdxs l = [i] ↔ UniqueMaxAt l i := by
  constructor
  · intro h
    have hi : i ∈ maxIdxs l := by rw [h]; exact List.mem_cons_self i []
    obtain ⟨hlen, hmax⟩ := mem_maxIdxs.mp hi
    refine ⟨hlen, fun j hj hne2 => ?_⟩
    have hle : l.getD j 0 ≤ listMax l := by
      apply le_listMax
      rw [← getElem_eq_getD hj]
      exact List.getElem_mem hj
    rcases lt_or_eq_of_le hle with hlt | heq
    · rw [hmax]; exact hlt
    · exfalso
      have : j ∈ maxIdxs l := mem_maxIdxs.mpr ⟨hj, heq⟩
      rw [h] at this
      exact hne2 (List.mem_singleton.mp this)
  · intro ⟨hlen, hdom⟩
    have hattain : l.getD i 0 = listMax l := by
      have h1 : l.getD i 0 ≤ listMax l := by
        apply le_listMax
        rw [← getElem_eq_getD hlen]
        exact List.getElem_mem hlen
      have h2 : listMax l ≤ l.getD i 0 := by
        obtain ⟨j, hj, hjeq⟩ := List.mem_iff_getElem.mp (listMax_mem l hne)
        rw [getElem_eq_getD hj] at hjeq
        by_cases hji : j = i
        · rw [hji] at hjeq; rw [hjeq]
        · rw [← hjeq]; exact le_of_lt (hdom j hj hji)
      exact le_antisymm h1 h2
    apply nodup_mem_singleton (nodup_maxIdxs l)
    intro a
    rw [mem_maxIdxs]
    constructor
    · intro ⟨ha, haeq⟩
      by_contra hai
      have := hdom a ha hai
      rw [haeq, hattain] at this
      exact lt_irrefl _ this
    · intro ha
      rw [ha]
      exact ⟨hlen, hattain⟩

theorem minIdxs_eq_singleton_iff {l : List ℚ} {i : ℕ} (hne : l ≠ []) :
    minIdxs l = [i] ↔ UniqueMinAt l i := by
  constructor
  · intro h
    have hi : i ∈ minIdxs l := by rw [h]; exact List.mem_cons_self i []
    obtain ⟨hlen, hmin⟩ := mem_minIdxs.mp hi
    refine ⟨hlen, fun j hj hne2 => ?_⟩
    have hle : listMin l ≤ l.getD j 0 := by
      apply listMin_le
      rw [← getElem_eq_getD hj]
      exact List.getElem_mem hj
    rcases lt_or_eq_of_le hle with hlt | heq
    · rw [hmin]; exact hlt
    · exfalso
      have : j ∈ minIdxs l := mem_minIdxs.mpr ⟨hj, heq.symm⟩
      rw [h] at this
      exact hne2 (List.mem_singleton.mp this)
  · intro ⟨hlen, hdom⟩
    have hattain : l.getD i 0 = listMin l := by
      have h1 : listMin l ≤ l.getD i 0 := by
        apply listMin_le
        rw [← getElem_eq_getD hlen]
        exact List.getElem_mem hlen
      have h2 : l.getD i 0 ≤ listMin l := by
        obtain ⟨j, hj, hjeq⟩ := List.mem_iff_getElem.mp (listMin_mem l hne)
        rw [getElem_eq_getD hj] at hjeq
        by_cases hji : j = i
        · rw [hji] at hjeq; rw [hjeq]
        · rw [← hjeq]; exact le_of_lt (hdom j hj hji)
      exact le_antisymm h2 h1
    apply nodup_mem_singleton (nodup_minIdxs l)
    intro a
    rw [mem_minIdxs]
    constructor
    · intro ⟨ha, haeq⟩
      by_contra hai
      have := hdom a ha hai
      rw [haeq, hattain] at this
      exact lt_irrefl _ this
    · intro ha
      rw [ha]
      exact ⟨hlen, hattain⟩

theorem maxIdxs_length_one_iff {l : List ℚ} (hne : l ≠ []) :
    (maxIdxs l).length = 1 ↔ HasUniqueMax l := by
  rw [List.length_eq_one]
  constructor
  · intro ⟨a, ha⟩
    exact ⟨a, (maxIdxs_eq_singleton_iff hne).mp ha⟩
  · intro ⟨i, hi⟩
    exact ⟨i, (maxIdxs_eq_singleton_iff hne).mpr hi⟩

theorem minIdxs_length_one_iff {l : List ℚ} (hne : l ≠ []) :
    (minIdxs l).length = 1 ↔ HasUniqueMin l := by
  rw [List.length_eq_one]
  constructor
  · intro ⟨a, ha⟩
    exact ⟨a, (minIdxs_eq_singleton_iff hne).mp ha⟩
  · intro ⟨i, hi⟩
    exact ⟨i, (minIdxs_eq_singleton_iff hne).mpr hi⟩

theorem maxIdxs_one_head_iff {l : List ℚ} (hne : l ≠ [])
    (h1 : (maxIdxs l).length = 1) :
    (maxIdxs l).getD 0 0 = 0 ↔ UniqueMaxAt l 0 := by
  obtain ⟨a, ha⟩ := List.length_eq_one.mp h1
  rw [ha]
  simp only [List.getD_cons_zero]
  constructor
  · intro h0
    rw [h0] at ha
    exact (maxIdxs_eq_singleton_iff hne).mp ha
  · intro hu
    have := (maxIdxs_eq_singleton_iff hne).mpr hu
    rw [ha] at this
    exact (List.cons.injEq _ _ _ _ ▸ this).1

theorem minIdxs_one_head_iff {l : List ℚ} (hne : l ≠ [])
    (h1 : (minIdxs l).length = 1) :
    (minIdxs l).getD 0 0 = 0 ↔ UniqueMinAt l 0 := by
  obtain ⟨a, ha⟩ := List.length_eq_one.mp h1
  rw [ha]
  simp only [List.getD_cons_zero]
  constructor
  · intro h0
    rw [h0] at ha
    exact (minIdxs_eq_singleton_iff hne).mp ha
  · intro hu
    have := (minIdxs_eq_singleton_iff hne).mpr hu
    rw [ha] at this
    exact (List.cons.injEq _ _ _ _ ▸ this).1

/-- C3: for a candidate junction point that is not already common and
whose deference check found no already-common neighbor endpoint, the
dominance cascade marks the point common iff the unique facc maximum sits
at candidate index 0, or facc is ambiguous and the unique wse minimum sits
at index 0, or facc and wse are ambiguous and the unique width maximum
sits at index 0, or all three tiers are ambiguous.  Missing attributes
enter the comparison as the sentinel -9999 (inside `attrValues`). -/
theorem find_common_dominance_iff
    (nghs : List ℤ) (facc wse wth : ℤ → Option ℚ) (hne : nghs ≠ []) :
    dominanceCommon nghs facc wse wth = true ↔
      (UniqueMaxAt (attrValues facc nghs) 0 ∨
       (¬ HasUniqueMax (attrValues facc nghs) ∧
         UniqueMinAt (attrValues wse nghs) 0) ∨
       (¬ HasUniqueMax (attrValues facc nghs) ∧
         ¬ HasUniqueMin (attrValues wse nghs) ∧
         UniqueMaxAt (attrValues wth nghs) 0) ∨
       (¬ HasUniqueMax (attrValues facc nghs) ∧
         ¬ HasUniqueMin (attrValues wse nghs) ∧
         ¬ HasUniqueMax (attrValues wth nghs))) := by
  have hfne : attrValues facc nghs ≠ [] := by
    simpa [attrValues] using hne
  have hhne : attrValues wse nghs ≠ [] := by
    simpa [attrValues] using hne
  have hwne : attrValues wth nghs ≠ [] := by
    simpa [attrValues] using hne
  dsimp only [dominanceCommon]
  split_ifs with hf hh hw
  · simp only [decide_eq_true_eq]
    rw [maxIdxs_one_head_iff hfne hf]
    constructor
    · exact fun h => Or.inl h
    · intro h
      rcases h with h | ⟨hn, _⟩ | ⟨hn, _, _⟩ | ⟨hn, _, _⟩
      · exact h
      all_goals exact absurd ((maxIdxs_length_one_iff hfne).mp hf) hn
  · have hnf : ¬ HasUniqueMax (attrValues facc nghs) :=
      fun hc => hf ((maxIdxs_length_one_iff hfne).mpr hc)
    simp only [decide_eq_true_eq]
    rw [minIdxs_one_head_iff hhne hh]
    constructor
    · exact fun h => Or.inr (Or.inl ⟨hnf, h⟩)
    · intro h
      rcases h with h | ⟨_, h⟩ | ⟨_, hn, _⟩ | ⟨_, hn, _⟩
      · exact absurd ⟨0, h⟩ hnf
      · exact h
      all_goals exact absurd ((minIdxs_length_one_iff hhne).mp hh) hn
  · have hnf : ¬ HasUniqueMax (attrValues facc nghs) :=
      fun hc => hf ((maxIdxs_length_one_iff hfne).mpr hc)
    have hnh : ¬ HasUniqueMin (attrValues wse nghs) :=
      fun hc => hh ((minIdxs_length_one_iff hhne).mpr hc)
    simp only [decide_eq_true_eq]
    rw [maxIdxs_one_head_iff hwne hw]
    constructor
    · exact fun h => Or.inr (Or.inr (Or.inl ⟨hnf, hnh, h⟩))
    · intro h
      rcases h with h | ⟨_, h⟩ | ⟨_, _, h⟩ | ⟨_, _, hn⟩
      · exact absurd ⟨0, h⟩ hnf
      · exact absurd ⟨0, h⟩ hnh
      · exact h
      · exact absurd ((maxIdxs_length_one_iff hwne).mp hw) hn
  · have hnf : ¬ HasUniqueMax (attrValues facc nghs) :=
      fun hc => hf ((maxIdxs_length_one_iff hfne).mpr hc)
    have hnh : ¬ HasUniqueMin (attrValues wse nghs) :=
      fun hc => hh ((minIdxs_length_one_iff hhne).mpr hc)
    have hnw : ¬ HasUniqueMax (attrValues wth nghs) :=
      fun hc => hw ((maxIdxs_length_one_iff hwne).mpr hc)
    constructor
    · exact fun _ => Or.inr (Or.inr (Or.inr ⟨hnf, hnh, hnw⟩))
    · exact fun _ => rfl

/-- Witness for C3: three reaches where reach 20 has the unique maximum
facc but sits at index 1, so the point is not marked common (tier 1
decides and the dominant reach is a guest); the iff instantiated at this
input evaluates both sides. -/
theorem find_common_dominance_iff_witness :
    dominanceCommon [10, 20, 30]
      (fun r => if r = 20 then some 500 else some 100)
      (fun _ => some 5) (fun _ => some 50) = false := by
  have h := find_common_dominance_iff [10, 20, 30]
    (fun r => if r = 20 then some 500 else some 100)
    (fun _ => some 5) (fun _ => some 50) (by simp)
  by_contra hc
  have htrue : dominanceCommon [10, 20, 30]
      (fun r => if r = 20 then some 500 else some 100)
      (fun _ => some 5) (fun _ => some 50) = true := by
    revert hc
    cases dominanceCommon [10, 20, 30]
      (fun r => if r = 20 then some 500 else some 100)
      (fun _ => some 5) (fun _ => some 50) 
    · simp
    · simp
  have hrhs := h.mp htrue
  have hvals : attrValues (fun r => if r = 20 then some 500 else some 100)
      [10, 20, 30] = [100, 500, 100] := by
    norm_num [attrValues]
  rcases hrhs with hu | ⟨hn, _⟩ | ⟨hn, _, _⟩ | ⟨hn, _, _⟩
  · rw [hvals] at hu
    have := hu.2 1 (by norm_num) (by norm_num)
    norm_num at this
  all_goals
    · rw [hvals] at hn
      apply hn
      refine ⟨1, by norm_num, ?_⟩
      intro j hj hj1
      have hj3 : j < 3 := by simpa using hj
      interval_cases j
      · norm_num
      · exact absurd rfl hj1
      · norm_num

/-! ## Index construction (build_indexes, rebuild_reach_geometry.py:103-149)

Rows of the `centerlines` and `centerline_neighbors` tables; coordinates
are exact rationals.  The `[4, N]` reach-id array is a function
`rank → column → reach id`, rebuilt from the primary row plus the
neighbor rows exactly as the Python loop does (later rows overwrite
earlier ones, rows with unknown `cl_id` or rank outside 1..3 are
dropped). -/

structure CLRow where
  cl_id : ℤ
  x : ℚ
  y : ℚ
  reach_id : ℤ
deriving Repr, DecidableEq, Inhabited

structure NghRow where
  cl_id : ℤ
  neighbor_rank : ℕ
  reach_id : ℤ
deriving Repr, DecidableEq, Inhabited

def clAt (primary : List CLRow) (i : ℕ) : CLRow :=
  primary.getD i ⟨0, 0, 0, 0⟩

/-- Python dict built with `cl_id_to_idx[cl_ids[i]] = i` for ascending
`i`: the last row with a given `cl_id` wins. -/
def clIdToIdx (primary : List CLRow) (cid : ℤ) : Option ℕ :=
  (List.range primary.length).reverse.find? (fun i => (clAt primary i).cl_id = cid)

def reachIdBase (primary : List CLRow) : ℕ → ℕ → ℤ := fun rank i =>
  if rank = 0 ∧ i < primary.length then (clAt primary i).reach_id else 0

/-- The `[4, N]` array: row 0 from `centerlines.reach_id`, rows 1-3 filled
from `centerline_neighbors` in row order. -/
def reachIdFun (primary : List CLRow) (neighbors : List NghRow) : ℕ → ℕ → ℤ :=
  neighbors.foldl
    (fun f nr =>
      match clIdToIdx primary nr.cl_id with
      | some idx =>
          if 1 ≤ nr.neighbor_rank ∧ nr.neighbor_rank ≤ 3 then
            fun rank i =>
              if rank = nr.neighbor_rank ∧ i = idx then nr.reach_id else f rank i
          else f
      | none => f)
    (reachIdBase primary)

/-- `reach_primary[rid]`: ascending array indices whose primary reach id
is `rid` (built only for positive ids). -/
def reachPrimary (primary : List CLRow) (rid : ℤ) : List ℕ :=
  if 0 < rid then
    (List.range primary.length).filter (fun i => (clAt primary i).reach_id = rid)
  else []

/-- `reach_neighbor[rid]`: the `(array index, rank)` pairs, iterating
columns then ranks 1-3, where row `rank` references `rid`. -/
def reachNeighbor (primary : List CLRow) (neighbors : List NghRow) (rid : ℤ) :
    List (ℕ × ℕ) :=
  if 0 < rid then
    (List.range primary.length).flatMap (fun i =>
      (([1, 2, 3] : List ℕ).filter
        (fun rank => reachIdFun primary neighbors rank i = rid)).map
        (fun rank => (i, rank)))
  else []

/-- `unq_rch = sorted(set(reach_id[0,:] if > 0))`. -/
def unqRch (primary : List CLRow) : List ℤ :=
  (((primary.map (fun r => r.reach_id)).filter (fun x => 0 < x)).dedup).insertionSort
    (· ≤ ·)

/-! ## Geometry builder (build_geometries, rebuild_reach_geometry.py:254-420)

`geopy.distance.geodesic` is an external collaborator; the builder is
parameterised over an abstract distance function on `(lat, lon)` pairs,
matching the `(y, x)` tuples the code passes. -/

structure EndEntry where
  idx : ℕ
  d : ℚ
  xp : ℚ
  yp : ℚ
  isCommon : Bool
deriving Repr, DecidableEq, Inhabited

structure BuilderCfg where
  primary : List CLRow
  neighbors : List NghRow
  common : ℕ → Bool
  dist : ℚ × ℚ → ℚ × ℚ → ℚ
  maxDist : ℚ
  region : String

/-- Asia dateline exception (lines 326-336): candidate kept unless one of
the two one-sided sign branches fires; the both-magnitudes-over-170 branch
is `pass` (keep) regardless of distance. -/
def asKeep (dist : ℚ × ℚ → ℚ × ℚ → ℚ) (maxDist : ℚ) (region : String)
    (xp yp : ℚ) (firstPt : ℚ × ℚ) : Bool :=
  if region = "AS" then
    let dist_wrap := dist (yp, xp) firstPt
    if xp * firstPt.2 < 0 ∧ |xp| > 170 ∧ |firstPt.2| > 170 then true
    else if xp < 0 ∧ firstPt.2 > 0 ∧ dist_wrap > maxDist then false
    else if xp > 0 ∧ firstPt.2 < 0 ∧ dist_wrap > maxDist then false
    else true
  else true

/-- Candidate classification loop (lines 321-345): each surviving
candidate is appended to `end1_pts` when strictly closer to the first
coordinate, to `end2_pts` when strictly closer to the last, and to
neither when exactly equidistant. -/
def classifyEnds (dist : ℚ × ℚ → ℚ × ℚ → ℚ) (maxDist : ℚ) (region : String)
    (common : ℕ → Bool) (cl : ℕ → CLRow) (cands : List ℕ)
    (firstPt lastPt : ℚ × ℚ) : List EndEntry × List EndEntry :=
  cands.foldl
    (fun acc cl_idx =>
      let xp := (cl cl_idx).x
      let yp := (cl cl_idx).y
      if asKeep dist maxDist region xp yp firstPt then
        let d1 := dist (yp, xp) firstPt
        let d2 := dist (yp, xp) lastPt
        let entry : EndEntry :=
          ⟨cl_idx, if d1 < d2 then d1 else d2, xp, yp, common cl_idx⟩
        if d1 < d2 then (acc.1 ++ [entry], acc.2)
        else if d1 > d2 then (acc.1, acc.2 ++ [entry])
        else acc
      else acc)
    ([], [])

/-- Stable sort by distance, then `common_idx[0] if common_idx else 0`. -/
def chooseEntry (pts : List EndEntry) : EndEntry :=
  let sorted := pts.insertionSort (fun a b => a.d ≤ b.d)
  let commonIdx :=
    (List.range sorted.length).filter (fun i => (sorted.getD i default).isCommon)
  sorted.getD (commonIdx.headD 0) default

/-- First index attaining the minimum (`np.argmin`). -/
def argminIdx (l : List ℚ) : ℕ :=
  (((List.range l.length).filter (fun i => l.getD i 0 = listMin l))).headD 0

/-- Extension choice for one end (lines 355-372 / 392-408): direct overlap
vertex within `max_dist`, else nearest point of the chosen candidate's
owning reach, else nothing. -/
def endExtension (dist : ℚ × ℚ → ℚ × ℚ → ℚ) (maxDist : ℚ)
    (reachIdF : ℕ → ℕ → ℤ) (rp : ℤ → List ℕ) (cl : ℕ → CLRow)
    (chosen : EndEntry) (endPt : ℚ × ℚ) : Option (ℚ × ℚ) :=
  if chosen.d ≤ maxDist then some (chosen.xp, chosen.yp)
  else
    let ngh_reach := reachIdF 0 chosen.idx
    let ngh_indices := rp ngh_reach
    if ngh_indices = [] then none
    else
      let d := ngh_indices.map (fun c => dist endPt ((cl c).y, (cl c).x))
      if listMin d ≤ maxDist then
        let best := argminIdx d
        some ((cl (ngh_indices.getD best 0)).x, (cl (ngh_indices.getD best 0)).y)
      else none

/-- Used-marking loop (lines 379-383 / 410-414): every `(rank, column)`
slot of the current reach's own points that references the chosen
neighbor's reach id. -/
def markUsed (reachIdF : ℕ → ℕ → ℤ) (rpIndices : List ℕ) (ngh : ℤ)
    (used : List (ℕ × ℕ)) : List (ℕ × ℕ) :=
  used ++ rpIndices.flatMap (fun i =>
    (([1, 2, 3] : List ℕ).filter (fun rank => reachIdF rank i = ngh)).map
      (fun rank => (rank, i)))

/-! ### Per-reach pipeline (named intermediates of the loop body) -/

/-- `sort_ind`: the reach's own columns sorted (stably) by `cl_id`
(`np.argsort` on `cl_id[indices]`). -/
def sortIndOf (cfg : BuilderCfg) (rid : ℤ) : List ℕ :=
  (reachPrimary cfg.primary rid).insertionSort
    (fun a b => (clAt cfg.primary a).cl_id ≤ (clAt cfg.primary b).cl_id)

/-- Base coordinate sequence `zip(x_coords, y_coords)` before extension. -/
def coordsOf (cfg : BuilderCfg) (rid : ℤ) : List (ℚ × ℚ) :=
  (sortIndOf cfg rid).map (fun i => ((clAt cfg.primary i).x, (clAt cfg.primary i).y))

/-- `in_rch_up_dn`: unused neighbor junction columns, `np.unique`d. -/
def candsOf (cfg : BuilderCfg) (used : List (ℕ × ℕ)) (rid : ℤ) : List ℕ :=
  (((((reachNeighbor cfg.primary cfg.neighbors rid).filter
      (fun p => ¬ (p.2, p.1) ∈ used)).map Prod.fst).insertionSort (· ≤ ·)).dedup)

def firstIdxOf (cfg : BuilderCfg) (rid : ℤ) : ℕ := (sortIndOf cfg rid).headD 0

def lastIdxOf (cfg : BuilderCfg) (rid : ℤ) : ℕ := (sortIndOf cfg rid).getLastD 0

/-- `first_pt = (cl_y[sort_ind[0]], cl_x[sort_ind[0]])`. -/
def firstPtOf (cfg : BuilderCfg) (rid : ℤ) : ℚ × ℚ :=
  ((clAt cfg.primary (firstIdxOf cfg rid)).y, (clAt cfg.primary (firstIdxOf cfg rid)).x)

def lastPtOf (cfg : BuilderCfg) (rid : ℤ) : ℚ × ℚ :=
  ((clAt cfg.primary (lastIdxOf cfg rid)).y, (clAt cfg.primary (lastIdxOf cfg rid)).x)

def endsOf (cfg : BuilderCfg) (used : List (ℕ × ℕ)) (rid : ℤ) :
    List EndEntry × List EndEntry :=
  classifyEnds cfg.dist cfg.maxDist cfg.region cfg.common (clAt cfg.primary)
    (candsOf cfg used rid) (firstPtOf cfg rid) (lastPtOf cfg rid)

structure ReachStep where
  geomOut : Option (List (ℚ × ℚ))
  usedOut : List (ℕ × ℕ)

/-- `np.insert(x_coords, 0, ...)` when an extension was chosen. -/
def extendFront (ext : Option (ℚ × ℚ)) (coords : List (ℚ × ℚ)) : List (ℚ × ℚ) :=
  match ext with
  | some p => p :: coords
  | none => coords

/-- `np.append(x_coords, ...)` when an extension was chosen. -/
def extendBack (ext : Option (ℚ × ℚ)) (coords : List (ℚ × ℚ)) : List (ℚ × ℚ) :=
  match ext with
  | some p => coords ++ [p]
  | none => coords

/-- One iteration of the `for rid in unq_rch` loop of `build_geometries`. -/
def processReach (cfg : BuilderCfg) (used : List (ℕ × ℕ)) (rid : ℤ) : ReachStep :=
  let indices := reachPrimary cfg.primary rid
  if indices = [] then ⟨none, used⟩
  else
    let coords := coordsOf cfg rid
    if candsOf cfg used rid = [] then
      ⟨if 2 ≤ coords.length then some coords else none, used⟩
    else
      let ends := endsOf cfg used rid
      let reachIdF := reachIdFun cfg.primary cfg.neighbors
      let state1 :=
        if ends.1 ≠ [] ∧ cfg.common (firstIdxOf cfg rid) ≠ true then
          let chosen := chooseEntry ends.1
          let ext := endExtension cfg.dist cfg.maxDist reachIdF
            (reachPrimary cfg.primary) (clAt cfg.primary) chosen (firstPtOf cfg rid)
          let coords1 := extendFront ext coords
          let ngh1 := reachIdF 0 chosen.idx
          (coords1, markUsed reachIdF indices ngh1 used)
        else (coords, used)
      let state2 :=
        if ends.2 ≠ [] ∧ cfg.common (lastIdxOf cfg rid) ≠ true then
          let chosen := chooseEntry ends.2
          let ext := endExtension cfg.dist cfg.maxDist reachIdF
            (reachPrimary cfg.primary) (clAt cfg.primary) chosen (lastPtOf cfg rid)
          let coords2 := extendBack ext state1.1
          let ngh2 := reachIdF 0 chosen.idx
          (coords2, markUsed reachIdF indices ngh2 state1.2)
        else state1
      ⟨if 2 ≤ state2.1.length then some state2.1 else none, state2.2⟩

/-- One loop iteration of `build_geometries`: record the geometry under
`geom[rid]` when one was produced, and thread the `used` set. -/
def buildStep (cfg : BuilderCfg)
    (acc : (ℤ → Option (List (ℚ × ℚ))) × List (ℕ × ℕ)) (rid : ℤ) :
    (ℤ → Option (List (ℚ × ℚ))) × List (ℕ × ℕ) :=
  let step := processReach cfg acc.2 rid
  (match step.geomOut with
   | some g => Function.update acc.1 rid (some g)
   | none => acc.1,
   step.usedOut)

/-- The full `build_geometries` loop over `unq_rch`, threading the shared
`used` set and the geometry map. -/
def buildGeometries (cfg : BuilderCfg) :
    (ℤ → Option (List (ℚ × ℚ))) × List (ℕ × ℕ) :=
  (unqRch cfg.primary).foldl (buildStep cfg) (fun _ => none, [])

/-! ## Endpoint snapper (snap_endpoints, rebuild_reach_geometry.py:428-529)

Edges come from `reach_topology WHERE direction = 'down'` as
`(reach_id, neighbor_reach_id)` pairs; both geometries must exist.
Coordinates are `(x, y)`; distances are taken on `(y, x)` as in the code.
Gap labels: 0 = e1-s2, 1 = e1-e2, 2 = s1-s2, 3 = s1-e2. -/

def minGapPair (gaps : List (ℚ × ℕ)) : ℚ × ℕ :=
  gaps.foldl (fun acc g => if g.1 < acc.1 then g else acc) (gaps.headD (0, 0))

/-- The four endpoint-pair gaps with their labels (0 = e1-s2, 1 = e1-e2,
2 = s1-s2, 3 = s1-e2); distances taken on `(y, x)` as in the code. -/
def gapsOf (dist : ℚ × ℚ → ℚ × ℚ → ℚ) (g1 g2 : List (ℚ × ℚ)) :
    List (ℚ × ℕ) :=
  [(dist ((g1.getLastD (0, 0)).2, (g1.getLastD (0, 0)).1)
      ((g2.headD (0, 0)).2, (g2.headD (0, 0)).1), 0),
   (dist ((g1.getLastD (0, 0)).2, (g1.getLastD (0, 0)).1)
      ((g2.getLastD (0, 0)).2, (g2.getLastD (0, 0)).1), 1),
   (dist ((g1.headD (0, 0)).2, (g1.headD (0, 0)).1)
      ((g2.headD (0, 0)).2, (g2.headD (0, 0)).1), 2),
   (dist ((g1.headD (0, 0)).2, (g1.headD (0, 0)).1)
      ((g2.getLastD (0, 0)).2, (g2.getLastD (0, 0)).1), 3)]

/-- Distances from an endpoint to each of a reach's owned points. -/
def nghDists (dist : ℚ × ℚ → ℚ × ℚ → ℚ) (primary : List CLRow) (nid : ℤ)
    (endPt : ℚ × ℚ) : List ℚ :=
  (reachPrimary primary nid).map
    (fun c => dist endPt ((clAt primary c).y, (clAt primary c).x))

/-- The owned point of `nid` nearest to `endPt` (`np.argmin` of the
distance list), as an `(x, y)` coordinate. -/
def nearestPt (dist : ℚ × ℚ → ℚ × ℚ → ℚ) (primary : List CLRow) (nid : ℤ)
    (endPt : ℚ × ℚ) : ℚ × ℚ :=
  let p := clAt primary
    ((reachPrimary primary nid).getD
      (argminIdx (nghDists dist primary nid endPt)) 0)
  (p.x, p.y)

/-- One iteration of the `for rid, nid in edges` loop.  Returns the
updated geometry map and whether this edge was snapped. -/
def snapOne (dist : ℚ × ℚ → ℚ × ℚ → ℚ) (snapThreshold : ℚ)
    (primary : List CLRow) (geom : ℤ → Option (List (ℚ × ℚ)))
    (edge : ℤ × ℤ) : (ℤ → Option (List (ℚ × ℚ))) × Bool :=
  match geom edge.1, geom edge.2 with
  | some g1, some g2 =>
      let mg := minGapPair (gapsOf dist g1 g2)
      if mg.1 < 1 then (geom, false)
      else
        let nid_indices := reachPrimary primary edge.2
        if nid_indices = [] then (geom, false)
        else if mg.2 = 0 ∨ mg.2 = 1 then
          let e1 := g1.getLastD (0, 0)
          if listMin (nghDists dist primary edge.2 (e1.2, e1.1)) <
              snapThreshold then
            (Function.update geom edge.1
              (some (g1 ++ [nearestPt dist primary edge.2 (e1.2, e1.1)])), true)
          else (geom, false)
        else
          let s1 := g1.headD (0, 0)
          if listMin (nghDists dist primary edge.2 (s1.2, s1.1)) <
              snapThreshold then
            (Function.update geom edge.1
              (some (nearestPt dist primary edge.2 (s1.2, s1.1) :: g1)), true)
          else (geom, false)
  | _, _ => (geom, false)

/-- The full snapping pass: fold over the downstream edges, counting the
snapped edges (`modified`). -/
def snapStep (dist : ℚ × ℚ → ℚ × ℚ → ℚ) (snapThreshold : ℚ)
    (primary : List CLRow) (acc : (ℤ → Option (List (ℚ × ℚ))) × ℕ)
    (e : ℤ × ℤ) : (ℤ → Option (List (ℚ × ℚ))) × ℕ :=
  let step := snapOne dist snapThreshold primary acc.1 e
  (step.1, acc.2 + if step.2 then 1 else 0)

def snapEndpoints (dist : ℚ × ℚ → ℚ × ℚ → ℚ) (snapThreshold : ℚ)
    (primary : List CLRow) (geom : ℤ → Option (List (ℚ × ℚ)))
    (edges : List (ℤ × ℤ)) : (ℤ → Option (List (ℚ × ℚ))) × ℕ :=
  edges.foldl (snapStep dist snapThreshold primary) (geom, 0)

/-! ### Claim C6: antimeridian exception -/

/-- Counterexample for C6 as stated: in region AS, with every distance
equal to 1000 m and threshold 500 m, the candidate at longitude -179 and
the reference endpoint at longitude 179 have disagreeing signs and a
great-circle distance exceeding the threshold, yet the candidate is
retained (the both-magnitudes-over-170 branch ignores the distance). -/
theorem as_dateline_counterexample :
    asKeep (fun _ _ => 1000) 500 "AS" (-179) 0 ((0 : ℚ), (179 : ℚ)) = true ∧
    ((-179 : ℚ) < 0 ∧ (0 : ℚ) < 179) ∧
    (fun (_ : ℚ × ℚ) (_ : ℚ × ℚ) => (1000 : ℚ)) ((0 : ℚ), (-179 : ℚ)) ((0 : ℚ), (179 : ℚ)) > 500 := by
  refine ⟨?_, by norm_num, by norm_num⟩
  norm_num [asKeep]

/-- C6 amended: a candidate whose longitude sign disagrees with the
reference endpoint's and whose great-circle distance exceeds the
threshold is excluded iff additionally NOT both longitude magnitudes
exceed 170 degrees (the code keeps opposite-sign pairs beyond 170°
regardless of distance); a candidate whose distance is within the
threshold is always retained (genuine date-line wraps survive). -/
theorem as_dateline_filter_iff (dist : ℚ × ℚ → ℚ × ℚ → ℚ) (maxDist : ℚ)
    (xp yp : ℚ) (firstPt : ℚ × ℚ) :
    (asKeep dist maxDist "AS" xp yp firstPt = false ↔
      (((xp < 0 ∧ 0 < firstPt.2) ∨ (0 < xp ∧ firstPt.2 < 0)) ∧
        dist (yp, xp) firstPt > maxDist ∧
        ¬ (|xp| > 170 ∧ |firstPt.2| > 170))) ∧
    (dist (yp, xp) firstPt ≤ maxDist →
      asKeep dist maxDist "AS" xp yp firstPt = true) := by
  constructor
  · dsimp only [asKeep]
    split_ifs with hA h1 h2 h3
    · simp only [Bool.true_eq_false, false_iff]
      intro ⟨hsig, hd, hnot⟩
      exact hnot ⟨h1.2.1, h1.2.2⟩
    · simp only [true_iff]
      refine ⟨Or.inl ⟨h2.1, h2.2.1⟩, h2.2.2, ?_⟩
      intro ⟨ha, hb⟩
      exact h1 ⟨mul_neg_of_neg_of_pos h2.1 h2.2.1, ha, hb⟩
    · simp only [true_iff]
      refine ⟨Or.inr ⟨h3.1, h3.2.1⟩, h3.2.2, ?_⟩
      intro ⟨ha, hb⟩
      exact h1 ⟨mul_neg_of_pos_of_neg h3.1 h3.2.1, ha, hb⟩
    · simp only [Bool.true_eq_false, false_iff]
      intro ⟨hsig, hd, hnot⟩
      rcases hsig with ⟨ha, hb⟩ | ⟨ha, hb⟩
      · exact h2 ⟨ha, hb, hd⟩
      · exact h3 ⟨ha, hb, hd⟩
    · exact absurd rfl hA
  · intro hd
    dsimp only [asKeep]
    split_ifs with hA h1 h2 h3
    · rfl
    · exact absurd h2.2.2 (not_lt.mpr hd)
    · exact absurd h3.2.2 (not_lt.mpr hd)
    · rfl
    · rfl

/-- Witness for the amended C6 theorem: a one-sided exclusion at
longitude -160 versus +20 with distance 1000 m > 500 m, and retention of
a close wrap. -/
theorem as_dateline_filter_iff_witness :
    asKeep (fun _ _ => 1000) 500 "AS" (-160) 0 ((0 : ℚ), (20 : ℚ)) = false ∧
    asKeep (fun _ _ => 100) 500 "AS" (-179) 0 ((0 : ℚ), (179 : ℚ)) = true := by
  constructor
  · exact (as_dateline_filter_iff (fun _ _ => 1000) 500 (-160) 0 ((0 : ℚ), (20 : ℚ))).1.mpr
      (by norm_num)
  · exact (as_dateline_filter_iff (fun _ _ => 100) 500 (-179) 0 ((0 : ℚ), (179 : ℚ))).2
      (by norm_num)

/-! ### Claim C7: start/far-end candidate classification -/

theorem classifyEnds_filter (dist : ℚ × ℚ → ℚ × ℚ → ℚ) (maxDist : ℚ)
    (region : String) (common : ℕ → Bool) (cl : ℕ → CLRow)
    (cands : List ℕ) (firstPt lastPt : ℚ × ℚ) :
    classifyEnds dist maxDist region common cl cands firstPt lastPt =
      ((cands.filter (fun c =>
          asKeep dist maxDist region (cl c).x (cl c).y firstPt &&
          decide (dist ((cl c).y, (cl c).x) firstPt <
            dist ((cl c).y, (cl c).x) lastPt))).map
        (fun c => ⟨c,
          if dist ((cl c).y, (cl c).x) firstPt < dist ((cl c).y, (cl c).x) lastPt
          then dist ((cl c).y, (cl c).x) firstPt
          else dist ((cl c).y, (cl c).x) lastPt,
          (cl c).x, (cl c).y, common c⟩),
       (cands.filter (fun c =>
          asKeep dist maxDist region (cl c).x (cl c).y firstPt &&
          decide (dist ((cl c).y, (cl c).x) firstPt >
            dist ((cl c).y, (cl c).x) lastPt))).map
        (fun c => ⟨c,
          if dist ((cl c).y, (cl c).x) firstPt < dist ((cl c).y, (cl c).x) lastPt
          then dist ((cl c).y, (cl c).x) firstPt
          else dist ((cl c).y, (cl c).x) lastPt,
          (cl c).x, (cl c).y, common c⟩)) := by
  rw [classifyEnds]
  suffices h : ∀ (acc : List EndEntry × List EndEntry),
      cands.foldl
        (fun acc cl_idx =>
          let xp := (cl cl_idx).x
          let yp := (cl cl_idx).y
          if asKeep dist maxDist region xp yp firstPt then
            let d1 := dist (yp, xp) firstPt
            let d2 := dist (yp, xp) lastPt
            let entry : EndEntry :=
              ⟨cl_idx, if d1 < d2 then d1 else d2, xp, yp, common cl_idx⟩
            if d1 < d2 then (acc.1 ++ [entry], acc.2)
            else if d1 > d2 then (acc.1, acc.2 ++ [entry])
            else acc
          else acc)
        acc =
      (acc.1 ++ (cands.filter (fun c =>
          asKeep dist maxDist region (cl c).x (cl c).y firstPt &&
          decide (dist ((cl c).y, (cl c).x) firstPt <
            dist ((cl c).y, (cl c).x) lastPt))).map
        (fun c => ⟨c,
          if dist ((cl c).y, (cl c).x) firstPt < dist ((cl c).y, (cl c).x) lastPt
          then dist ((cl c).y, (cl c).x) firstPt
          else dist ((cl c).y, (cl c).x) lastPt,
          (cl c).x, (cl c).y, common c⟩),
       acc.2 ++ (cands.filter (fun c =>
          asKeep dist maxDist region (cl c).x (cl c).y firstPt &&
          decide (dist ((cl c).y, (cl c).x) firstPt >
            dist ((cl c).y, (cl c).x) lastPt))).map
        (fun c => ⟨c,
          if dist ((cl c).y, (cl c).x) firstPt < dist ((cl c).y, (cl c).x) lastPt
          then dist ((cl c).y, (cl c).x) firstPt
          else dist ((cl c).y, (cl c).x) lastPt,
          (cl c).x, (cl c).y, common c⟩)) by
    simpa using h ([], [])
  induction cands with
  | nil =>
      intro acc
      simp
  | cons c cs ih =>
      intro acc
      rw [List.foldl_cons, List.filter_cons, List.filter_cons]
      by_cases hk : asKeep dist maxDist region (cl c).x (cl c).y firstPt
      · by_cases h12 : dist ((cl c).y, (cl c).x) firstPt <
            dist ((cl c).y, (cl c).x) lastPt
        · simp only [hk, h12, if_pos, if_true, Bool.true_and,
            decide_eq_true_eq, Bool.and_self, List.map_cons]
          rw [ih]
          simp only [List.append_assoc, List.singleton_append]
          have : ¬ (dist ((cl c).y, (cl c).x) firstPt >
              dist ((cl c).y, (cl c).x) lastPt) := by
            exact not_lt.mpr (le_of_lt h12)
          simp [hk, h12, this]
        · by_cases h21 : dist ((cl c).y, (cl c).x) firstPt >
              dist ((cl c).y, (cl c).x) lastPt
          · simp only [hk, h12, h21, if_true, if_false, List.map_cons]
            rw [ih]
            simp [hk, h12, h21, List.append_assoc]
          · simp only [hk, h12, h21, if_false]
            rw [ih]
            simp [hk, h12, h21]
      · simp only [hk, if_false]
        rw [ih]
        simp [hk]

/-- C7: a surviving candidate neighbor point strictly closer to the
sequence's first coordinate becomes a start-end (end1) candidate, one
strictly closer to the last coordinate becomes a far-end (end2)
candidate, and an exactly equidistant candidate is claimed by neither
end. -/
theorem end_candidate_classification (dist : ℚ × ℚ → ℚ × ℚ → ℚ)
    (maxDist : ℚ) (region : String) (common : ℕ → Bool) (cl : ℕ → CLRow)
    (cands : List ℕ) (firstPt lastPt : ℚ × ℚ) (c : ℕ) (hc : c ∈ cands)
    (hkeep : asKeep dist maxDist region (cl c).x (cl c).y firstPt = true) :
    ((∃ e ∈ (classifyEnds dist maxDist region common cl cands firstPt lastPt).1,
        e.idx = c) ↔
      dist ((cl c).y, (cl c).x) firstPt < dist ((cl c).y, (cl c).x) lastPt) ∧
    ((∃ e ∈ (classifyEnds dist maxDist region common cl cands firstPt lastPt).2,
        e.idx = c) ↔
      dist ((cl c).y, (cl c).x) lastPt < dist ((cl c).y, (cl c).x) firstPt) ∧
    (dist ((cl c).y, (cl c).x) firstPt = dist ((cl c).y, (cl c).x) lastPt →
      (∀ e ∈ (classifyEnds dist maxDist region common cl cands firstPt lastPt).1,
        e.idx ≠ c) ∧
      (∀ e ∈ (classifyEnds dist maxDist region common cl cands firstPt lastPt).2,
        e.idx ≠ c)) := by
  rw [classifyEnds_filter]
  refine ⟨?_, ?_, ?_⟩
  · constructor
    · rintro ⟨e, he, hidx⟩
      obtain ⟨c', hc', rfl⟩ := List.mem_map.mp he
      obtain ⟨hmem, hp⟩ := List.mem_filter.mp hc'
      dsimp at hidx
      subst hidx
      simpa [hkeep] using hp
    · intro h12
      refine ⟨_, List.mem_map.mpr ⟨c, List.mem_filter.mpr ⟨hc, ?_⟩, rfl⟩, rfl⟩
      simp [hkeep, h12]
  · constructor
    · rintro ⟨e, he, hidx⟩
      obtain ⟨c', hc', rfl⟩ := List.mem_map.mp he
      obtain ⟨hmem, hp⟩ := List.mem_filter.mp hc'
      dsimp at hidx
      subst hidx
      simpa [hkeep] using hp
    · intro h21
      refine ⟨_, List.mem_map.mpr ⟨c, List.mem_filter.mpr ⟨hc, ?_⟩, rfl⟩, rfl⟩
      simp [hkeep]
      exact h21
  · intro heq
    constructor
    · intro e he hidx
      obtain ⟨c', hc', rfl⟩ := List.mem_map.mp he
      obtain ⟨hmem, hp⟩ := List.mem_filter.mp hc'
      dsimp at hidx
      subst hidx
      rw [heq] at hp
      simp at hp
    · intro e he hidx
      obtain ⟨c', hc', rfl⟩ := List.mem_map.mp he
      obtain ⟨hmem, hp⟩ := List.mem_filter.mp hc'
      dsimp at hidx
      subst hidx
      rw [heq] at hp
      simp at hp

/-- Witness for C7: with the L1 distance, a candidate at x = 3 between a
first coordinate at x = 0 and a last coordinate at x = 10 is assigned to
the start end. -/
theorem end_candidate_classification_witness :
    ∃ e ∈ (classifyEnds (fun p q => |p.1 - q.1| + |p.2 - q.2|) 500 "NA"
      (fun _ => false) (fun i => ⟨i, 3, 0, 7⟩) [5]
      ((0 : ℚ), (0 : ℚ)) ((0 : ℚ), (10 : ℚ))).1, e.idx = 5 := by
  have h := end_candidate_classification
    (fun p q => |p.1 - q.1| + |p.2 - q.2|) 500 "NA"
    (fun _ => false) (fun i => ⟨i, 3, 0, 7⟩) [5]
    ((0 : ℚ), (0 : ℚ)) ((0 : ℚ), (10 : ℚ)) 5
    (List.mem_cons_self 5 []) (by norm_num [asKeep])
  exact h.1.mpr (by norm_num)

/-! ### Claim C10: used-marking independent of whether a vertex was added -/

theorem markUsed_mem_iff (f : ℕ → ℕ → ℤ) (indices : List ℕ) (ngh : ℤ)
    (used : List (ℕ × ℕ)) (rank i : ℕ) :
    (rank, i) ∈ markUsed f indices ngh used ↔
      (rank, i) ∈ used ∨
      (i ∈ indices ∧ rank ∈ ([1, 2, 3] : List ℕ) ∧ f rank i = ngh) := by
  simp only [markUsed, List.mem_append, List.mem_flatMap, List.mem_map,
    List.mem_filter]
  constructor
  · rintro (h | ⟨a, ha, rank', ⟨hr, hf⟩, heq⟩)
    · exact Or.inl h
    · obtain ⟨h1, h2⟩ := Prod.mk.injEq _ _ _ _ ▸ heq
      exact Or.inr ⟨h2 ▸ ha, h1 ▸ hr, by rw [← h1, ← h2]; exact of_decide_eq_true hf⟩
  · rintro (h | ⟨ha, hr, hf⟩)
    · exact Or.inl h
    · exact Or.inr ⟨i, ha, rank, ⟨hr, decide_eq_true hf⟩, rfl⟩

theorem markUsed_mono (f : ℕ → ℕ → ℤ) (indices : List ℕ) (ngh : ℤ)
    (used : List (ℕ × ℕ)) (p : ℕ × ℕ) (h : p ∈ used) :
    p ∈ markUsed f indices ngh used :=
  List.mem_append_left _ h

theorem endsOf_of_no_cands {cfg : BuilderCfg} {used : List (ℕ × ℕ)} {rid : ℤ}
    (h : candsOf cfg used rid = []) : endsOf cfg used rid = ([], []) := by
  rw [endsOf, h]
  rfl

theorem processReach_usedOut_eq (cfg : BuilderCfg) (used : List (ℕ × ℕ))
    (rid : ℤ) (hind : reachPrimary cfg.primary rid ≠ [])
    (hcands : candsOf cfg used rid ≠ []) :
    (processReach cfg used rid).usedOut =
      (if (endsOf cfg used rid).2 ≠ [] ∧ cfg.common (lastIdxOf cfg rid) ≠ true
       then markUsed (reachIdFun cfg.primary cfg.neighbors)
         (reachPrimary cfg.primary rid)
         (reachIdFun cfg.primary cfg.neighbors 0
           (chooseEntry (endsOf cfg used rid).2).idx)
         (if (endsOf cfg used rid).1 ≠ [] ∧
              cfg.common (firstIdxOf cfg rid) ≠ true
          then markUsed (reachIdFun cfg.primary cfg.neighbors)
            (reachPrimary cfg.primary rid)
            (reachIdFun cfg.primary cfg.neighbors 0
              (chooseEntry (endsOf cfg used rid).1).idx) used
          else used)
       else
         (if (endsOf cfg used rid).1 ≠ [] ∧
              cfg.common (firstIdxOf cfg rid) ≠ true
          then markUsed (reachIdFun cfg.primary cfg.neighbors)
            (reachPrimary cfg.primary rid)
            (reachIdFun cfg.primary cfg.neighbors 0
              (chooseEntry (endsOf cfg used rid).1).idx) used
          else used)) := by
  rw [processReach, if_neg hind]
  dsimp only
  rw [if_neg hcands]
  split_ifs <;> rfl

/-- C10: once an end of a reach has surviving candidates and the reach's
own endpoint is not flagged common, every `(rank, column)` slot of the
reach's own point set referencing the chosen candidate's owning reach id
ends up in the used set — the marking does not depend on whether an
overlap vertex was actually added (no distance hypothesis appears). -/
theorem used_marking_unconditional (cfg : BuilderCfg) (used : List (ℕ × ℕ))
    (rid : ℤ) (hind : reachPrimary cfg.primary rid ≠ []) (rank i : ℕ)
    (hi : i ∈ reachPrimary cfg.primary rid) (hrank : rank ∈ ([1, 2, 3] : List ℕ)) :
    ((endsOf cfg used rid).1 ≠ [] →
      cfg.common (firstIdxOf cfg rid) ≠ true →
      reachIdFun cfg.primary cfg.neighbors rank i =
        reachIdFun cfg.primary cfg.neighbors 0
          (chooseEntry (endsOf cfg used rid).1).idx →
      (rank, i) ∈ (processReach cfg used rid).usedOut) ∧
    ((endsOf cfg used rid).2 ≠ [] →
      cfg.common (lastIdxOf cfg rid) ≠ true →
      reachIdFun cfg.primary cfg.neighbors rank i =
        reachIdFun cfg.primary cfg.neighbors 0
          (chooseEntry (endsOf cfg used rid).2).idx →
      (rank, i) ∈ (processReach cfg used rid).usedOut) := by
  constructor
  · intro hne1 hcom1 hslot
    have hcands : candsOf cfg used rid ≠ [] := by
      intro hc
      rw [endsOf_of_no_cands hc] at hne1
      exact hne1 rfl
    rw [processReach_usedOut_eq cfg used rid hind hcands]
    rw [if_pos (show (endsOf cfg used rid).1 ≠ [] ∧
      cfg.common (firstIdxOf cfg rid) ≠ true from ⟨hne1, hcom1⟩)]
    split_ifs with h2
    · apply markUsed_mono
      exact (markUsed_mem_iff _ _ _ _ _ _).mpr (Or.inr ⟨hi, hrank, hslot⟩)
    · exact (markUsed_mem_iff _ _ _ _ _ _).mpr (Or.inr ⟨hi, hrank, hslot⟩)
  · intro hne2 hcom2 hslot
    have hcands : candsOf cfg used rid ≠ [] := by
      intro hc
      rw [endsOf_of_no_cands hc] at hne2
      exact hne2 rfl
    rw [processReach_usedOut_eq cfg used rid hind hcands]
    rw [if_pos (show (endsOf cfg used rid).2 ≠ [] ∧
      cfg.common (lastIdxOf cfg rid) ≠ true from ⟨hne2, hcom2⟩)]
    exact (markUsed_mem_iff _ _ _ _ _ _).mpr (Or.inr ⟨hi, hrank, hslot⟩)

/-- Concrete builder configuration for the C10 witness: reach 1 owns
columns 0 and 1, reach 2 owns column 2 which references reach 1 at rank 1;
column 0 references reach 2 at rank 1.  All candidate distances exceed
`maxDist = 2`, so no overlap vertex can be added anywhere. -/
def wcfgMark : BuilderCfg :=
  { primary := [⟨1, 0, 0, 1⟩, ⟨2, 1, 0, 1⟩, ⟨3, -5, 5, 2⟩]
    neighbors := [⟨1, 1, 2⟩, ⟨3, 1, 1⟩]
    common := fun _ => false
    dist := fun _ q => if q = ((0 : ℚ), (0 : ℚ)) then 10 else 11
    maxDist := 2
    region := "NA" }

/-- Witness for C10: in `wcfgMark`, processing reach 1 adds no overlap
vertex (the geometry stays the two owned points) yet slot `(rank 1,
column 0)` — which references the chosen candidate's reach 2 — is marked
used. -/
theorem used_marking_unconditional_witness :
    (1, 0) ∈ (processReach wcfgMark [] 1).usedOut ∧
    (processReach wcfgMark [] 1).geomOut =
      some [((0 : ℚ), (0 : ℚ)), ((1 : ℚ), (0 : ℚ))] := by
  refine ⟨?_, by decide⟩
  exact (used_marking_unconditional wcfgMark [] 1 (by decide) 1 0
    (by decide) (by decide)).1 (by decide) (by decide) (by decide)

/-! ### Claim C4: no point loss -/

theorem coordsOf_length (cfg : BuilderCfg) (rid : ℤ) :
    (coordsOf cfg rid).length = (reachPrimary cfg.primary rid).length := by
  simp [coordsOf, sortIndOf]

theorem emit_shape {L coords pre suf : List (ℚ × ℚ)}
    (hL : L = pre ++ coords ++ suf) (hpre : pre.length ≤ 1)
    (hsuf : suf.length ≤ 1) (h2 : 2 ≤ coords.length) :
    ∃ pre' suf' : List (ℚ × ℚ),
      (if 2 ≤ L.length then some L else none) = some (pre' ++ coords ++ suf') ∧
      pre'.length ≤ 1 ∧ suf'.length ≤ 1 := by
  subst hL
  rw [if_pos (by simp only [List.length_append]; omega)]
  exact ⟨pre, suf, rfl, hpre, hsuf⟩

theorem processReach_geom_shape (cfg : BuilderCfg) (used : List (ℕ × ℕ))
    (rid : ℤ) (h2 : 2 ≤ (reachPrimary cfg.primary rid).length) :
    ∃ pre suf : List (ℚ × ℚ),
      (processReach cfg used rid).geomOut =
        some (pre ++ coordsOf cfg rid ++ suf) ∧
      pre.length ≤ 1 ∧ suf.length ≤ 1 := by
  have hind : reachPrimary cfg.primary rid ≠ [] := by
    intro h
    rw [h] at h2
    simp at h2
  have hclen : 2 ≤ (coordsOf cfg rid).length := by
    rw [coordsOf_length]
    exact h2
  rw [processReach, if_neg hind]
  dsimp only
  by_cases hcands : candsOf cfg used rid = []
  · rw [if_pos hcands]
    dsimp only
    exact emit_shape (show coordsOf cfg rid = [] ++ coordsOf cfg rid ++ [] by simp)
      (by simp) (by simp) hclen
  · rw [if_neg hcands]
    dsimp only
    rcases hext1 : endExtension cfg.dist cfg.maxDist
        (reachIdFun cfg.primary cfg.neighbors) (reachPrimary cfg.primary)
        (clAt cfg.primary) (chooseEntry (endsOf cfg used rid).1)
        (firstPtOf cfg rid) with _ | p1 <;>
      rcases hext2 : endExtension cfg.dist cfg.maxDist
        (reachIdFun cfg.primary cfg.neighbors) (reachPrimary cfg.primary)
        (clAt cfg.primary) (chooseEntry (endsOf cfg used rid).2)
        (lastPtOf cfg rid) with _ | p2 <;>
      split_ifs <;>
      try dsimp only
    all_goals
      first
      | (refine ⟨[], [], ?_, ?_, ?_⟩ <;> simp [extendFront, extendBack]
         done)
      | (refine ⟨[], [p2], ?_, ?_, ?_⟩ <;> simp [extendFront, extendBack]
         done)
      | (refine ⟨[p1], [], ?_, ?_, ?_⟩ <;> simp [extendFront, extendBack]
         done)
      | (refine ⟨[p1], [p2], ?_, ?_, ?_⟩ <;> simp [extendFront, extendBack]
         done)
      | (exfalso
         simp only [extendFront, extendBack, List.length_cons, List.length_append,
           List.length_singleton] at *
         omega)

theorem buildStep_fst_ne (cfg : BuilderCfg)
    (acc : (ℤ → Option (List (ℚ × ℚ))) × List (ℕ × ℕ)) (rid r : ℤ)
    (h : r ≠ rid) : (buildStep cfg acc rid).1 r = acc.1 r := by
  rcases hg : (processReach cfg acc.2 rid).geomOut with _ | g <;>
    simp [buildStep, hg, Function.update, h]

theorem foldl_buildStep_not_mem (cfg : BuilderCfg) :
    ∀ (rids : List ℤ) (acc : (ℤ → Option (List (ℚ × ℚ))) × List (ℕ × ℕ))
      (rid : ℤ), rid ∉ rids →
      (rids.foldl (buildStep cfg) acc).1 rid = acc.1 rid := by
  intro rids
  induction rids with
  | nil => intro acc rid _; rfl
  | cons r rs ih =>
      intro acc rid hmem
      rw [List.foldl_cons]
      rw [ih _ rid (fun h => hmem (List.mem_cons_of_mem r h))]
      exact buildStep_fst_ne cfg acc r rid (fun h => hmem (h ▸ List.mem_cons_self r rs))

theorem foldl_buildStep_get (cfg : BuilderCfg) :
    ∀ (rids : List ℤ) (acc : (ℤ → Option (List (ℚ × ℚ))) × List (ℕ × ℕ))
      (rid : ℤ), rid ∈ rids → rids.Nodup → acc.1 rid = none →
      ∃ u, (rids.foldl (buildStep cfg) acc).1 rid =
        (processReach cfg u rid).geomOut := by
  intro rids
  induction rids with
  | nil => intro acc rid h; cases h
  | cons r rs ih =>
      intro acc rid hmem hnd hnone
      rw [List.foldl_cons]
      rcases List.mem_cons.mp hmem with rfl | hmem2
      · have hnotin : rid ∉ rs := (List.nodup_cons.mp hnd).1
        rw [foldl_buildStep_not_mem cfg rs _ rid hnotin]
        refine ⟨acc.2, ?_⟩
        rcases hg : (processReach cfg acc.2 rid).geomOut with _ | g <;>
          simp [buildStep, hg, Function.update, hnone]
      · have hne : rid ≠ r := by
          intro h
          exact (List.nodup_cons.mp hnd).1 (h ▸ hmem2)
        refine ih _ rid hmem2 (List.nodup_cons.mp hnd).2 ?_
        rw [buildStep_fst_ne cfg acc r rid hne]
        exact hnone

theorem unqRch_nodup (primary : List CLRow) : (unqRch primary).Nodup := by
  rw [unqRch]
  exact (List.perm_insertionSort _ _).nodup_iff.mpr (List.nodup_dedup _)

theorem mem_unqRch {primary : List CLRow} {rid : ℤ}
    (h : reachPrimary primary rid ≠ []) : rid ∈ unqRch primary := by
  rw [unqRch]
  rw [(List.perm_insertionSort _ _).mem_iff, List.mem_dedup, List.mem_filter]
  rw [reachPrimary] at h
  split_ifs at h with hpos
  · obtain ⟨i, hi⟩ := List.exists_mem_of_ne_nil _ h
    obtain ⟨hir, hieq⟩ := List.mem_filter.mp hi
    have hilen : i < primary.length := List.mem_range.mp hir
    refine ⟨?_, by simpa using hpos⟩
    rw [List.mem_map]
    refine ⟨primary[i], List.getElem_mem hilen, ?_⟩
    have : clAt primary i = primary[i] := by
      rw [clAt, List.getD_eq_getElem _ _ hilen]
    rw [← this]
    exact of_decide_eq_true hieq
  · exact absurd rfl h

theorem exists_presuf_append (L : List (ℚ × ℚ)) (p : ℚ × ℚ) :
    ∃ pre suf : List (ℚ × ℚ), some (L ++ [p]) = some (pre ++ L ++ suf) :=
  ⟨[], [p], by simp⟩

theorem exists_presuf_cons (L : List (ℚ × ℚ)) (p : ℚ × ℚ) :
    ∃ pre suf : List (ℚ × ℚ), some (p :: L) = some (pre ++ L ++ suf) :=
  ⟨[p], [], by simp⟩

theorem snapOne_preserve (dist : ℚ × ℚ → ℚ × ℚ → ℚ) (thr : ℚ)
    (primary : List CLRow) (geom : ℤ → Option (List (ℚ × ℚ)))
    (e : ℤ × ℤ) (r : ℤ) (g : List (ℚ × ℚ)) (h : geom r = some g) :
    ∃ pre suf : List (ℚ × ℚ),
      (snapOne dist thr primary geom e).1 r = some (pre ++ g ++ suf) := by
  rw [snapOne]
  rcases h1 : geom e.1 with _ | g1 <;> rcases h2 : geom e.2 with _ | g2 <;>
    dsimp only
  · exact ⟨[], [], by simp [h]⟩
  · exact ⟨[], [], by simp [h]⟩
  · exact ⟨[], [], by simp [h]⟩
  · by_cases hr : r = e.1
    · subst hr
      have hg1 : g1 = g := by
        rw [h] at h1
        exact (Option.some_inj.mp h1).symm
      subst hg1
      split_ifs <;>
        first
        | (refine ⟨[], [], ?_⟩
           simp [h]
           done)
        | (dsimp only
           rw [Function.update_same]
           exact exists_presuf_append _ _)
        | (dsimp only
           rw [Function.update_same]
           exact exists_presuf_cons _ _)
    · split_ifs <;>
        first
        | (refine ⟨[], [], ?_⟩
           simp [h]
           done)
        | (dsimp only
           rw [Function.update_noteq hr]
           refine ⟨[], [], ?_⟩
           simp [h]
           done)

theorem snapEndpoints_preserve (dist : ℚ × ℚ → ℚ × ℚ → ℚ) (thr : ℚ)
    (primary : List CLRow) :
    ∀ (edges : List (ℤ × ℤ)) (acc : (ℤ → Option (List (ℚ × ℚ))) × ℕ)
      (r : ℤ) (g : List (ℚ × ℚ)), acc.1 r = some g →
      ∃ pre suf : List (ℚ × ℚ),
        (edges.foldl (snapStep dist thr primary) acc).1 r =
          some (pre ++ g ++ suf) := by
  intro edges
  induction edges with
  | nil =>
      intro acc r g h
      exact ⟨[], [], by simp [h]⟩
  | cons e es ih =>
      intro acc r g h
      rw [List.foldl_cons]
      obtain ⟨pre1, suf1, h1⟩ := snapOne_preserve dist thr primary acc.1 e r g h
      have hstep : (snapStep dist thr primary acc e).1 r =
          some (pre1 ++ g ++ suf1) := h1
      obtain ⟨pre2, suf2, h2⟩ := ih (snapStep dist thr primary acc e) r
        (pre1 ++ g ++ suf1) hstep
      refine ⟨pre2 ++ pre1, suf1 ++ suf2, ?_⟩
      rw [h2]
      simp [List.append_assoc]

/-- C4: every reach owning at least 2 centerline points gets a geometry
from the Builder; that geometry is its owned coordinates, sorted by
ascending point identifier (`sortIndOf` is a permutation of the owned
columns sorted by `cl_id`), with at most one borrowed vertex prepended
and one appended; after the Endpoint Snapper the built geometry is still
present as a contiguous block, so the total point count is at least the
owned-point count — neither pass removes or reorders owned coordinates. -/
theorem no_point_loss (cfg : BuilderCfg) (sdist : ℚ × ℚ → ℚ × ℚ → ℚ)
    (thr : ℚ) (edges : List (ℤ × ℤ)) (rid : ℤ)
    (h2 : 2 ≤ (reachPrimary cfg.primary rid).length) :
    (sortIndOf cfg rid).Perm (reachPrimary cfg.primary rid) ∧
    List.Pairwise
      (fun a b => (clAt cfg.primary a).cl_id ≤ (clAt cfg.primary b).cl_id)
      (sortIndOf cfg rid) ∧
    (∃ pre suf g, (buildGeometries cfg).1 rid = some g ∧
      g = pre ++ coordsOf cfg rid ++ suf ∧ pre.length ≤ 1 ∧ suf.length ≤ 1 ∧
      ∃ pre2 suf2,
        (snapEndpoints sdist thr cfg.primary
          (buildGeometries cfg).1 edges).1 rid = some (pre2 ++ g ++ suf2)) ∧
    ∀ gf, (snapEndpoints sdist thr cfg.primary
        (buildGeometries cfg).1 edges).1 rid = some gf →
      (reachPrimary cfg.primary rid).length ≤ gf.length := by
  have hind : reachPrimary cfg.primary rid ≠ [] := by
    intro h
    rw [h] at h2
    simp at h2
  have hperm : (sortIndOf cfg rid).Perm (reachPrimary cfg.primary rid) :=
    List.perm_insertionSort _ _
  have hsorted : List.Pairwise
      (fun a b => (clAt cfg.primary a).cl_id ≤ (clAt cfg.primary b).cl_id)
      (sortIndOf cfg rid) := by
    rw [sortIndOf]
    haveI : IsTotal ℕ
        (fun a b => (clAt cfg.primary a).cl_id ≤ (clAt cfg.primary b).cl_id) :=
      ⟨fun a b => le_total _ _⟩
    haveI : IsTrans ℕ
        (fun a b => (clAt cfg.primary a).cl_id ≤ (clAt cfg.primary b).cl_id) :=
      ⟨fun a b c hab hbc => le_trans hab hbc⟩
    exact List.sorted_insertionSort _ (reachPrimary cfg.primary rid)
  obtain ⟨u, hu⟩ := foldl_buildStep_get cfg (unqRch cfg.primary)
    (fun _ => none, []) rid (mem_unqRch hind) (unqRch_nodup cfg.primary) rfl
  obtain ⟨pre, suf, hshape, hpre, hsuf⟩ := processReach_geom_shape cfg u rid h2
  have hbuilt : (buildGeometries cfg).1 rid =
      some (pre ++ coordsOf cfg rid ++ suf) := by
    rw [buildGeometries, hu, hshape]
  obtain ⟨pre2, suf2, hsnap⟩ := snapEndpoints_preserve sdist thr cfg.primary
    edges ((buildGeometries cfg).1, 0) rid (pre ++ coordsOf cfg rid ++ suf) hbuilt
  refine ⟨hperm, hsorted,
    ⟨pre, suf, pre ++ coordsOf cfg rid ++ suf, hbuilt, rfl, hpre, hsuf,
      pre2, suf2, hsnap⟩, ?_⟩
  intro gf hgf
  rw [snapEndpoints] at hgf
  rw [hsnap] at hgf
  have : gf = pre2 ++ (pre ++ coordsOf cfg rid ++ suf) ++ suf2 :=
    (Option.some_inj.mp hgf).symm
  rw [this]
  simp only [List.length_append]
  have := coordsOf_length cfg rid
  omega

/-- Witness for C4: in `wcfgMark` reach 1 owns two points and the final
geometry after Builder plus (empty-edge) Snapper still has at least that
many points. -/
theorem no_point_loss_witness :
    2 ≤ (reachPrimary wcfgMark.primary 1).length ∧
    (reachPrimary wcfgMark.primary 1).length ≤
      ([((0 : ℚ), (0 : ℚ)), ((1 : ℚ), (0 : ℚ))] : List (ℚ × ℚ)).length := by
  refine ⟨by decide, ?_⟩
  have h := no_point_loss wcfgMark wcfgMark.dist 500 [] 1 (by decide)
  exact h.2.2.2 [((0 : ℚ), (0 : ℚ)), ((1 : ℚ), (0 : ℚ))] (by decide)

/-! ### Claim C5: per-edge snapping behavior and the modified count -/

theorem argminIdx_spec (l : List ℚ) (hne : l ≠ []) :
    argminIdx l < l.length ∧ l.getD (argminIdx l) 0 = listMin l := by
  have hmem : listMin l ∈ l := listMin_mem l hne
  obtain ⟨j, hj, hjeq⟩ := List.mem_iff_getElem.mp hmem
  have hjfil : j ∈ (List.range l.length).filter
      (fun i => l.getD i 0 = listMin l) := by
    rw [List.mem_filter, List.mem_range]
    refine ⟨hj, ?_⟩
    rw [List.getD_eq_getElem l 0 hj]
    simp [hjeq]
  rcases hL : (List.range l.length).filter (fun i => l.getD i 0 = listMin l)
    with _ | ⟨c, L⟩
  · rw [hL] at hjfil
    cases hjfil
  · have hc : c ∈ (List.range l.length).filter
        (fun i => l.getD i 0 = listMin l) := by
      rw [hL]
      exact List.mem_cons_self c L
    obtain ⟨hcr, hceq⟩ := List.mem_filter.mp hc
    have : argminIdx l = c := by
      rw [argminIdx, hL]
      rfl
    rw [this]
    exact ⟨List.mem_range.mp hcr, of_decide_eq_true hceq⟩

theorem nearestPt_spec (dist : ℚ × ℚ → ℚ × ℚ → ℚ) (primary : List CLRow)
    (nid : ℤ) (endPt : ℚ × ℚ) (hne : reachPrimary primary nid ≠ []) :
    ∃ c ∈ reachPrimary primary nid,
      nearestPt dist primary nid endPt =
        ((clAt primary c).x, (clAt primary c).y) ∧
      dist endPt ((clAt primary c).y, (clAt primary c).x) =
        listMin (nghDists dist primary nid endPt) := by
  have hdne : nghDists dist primary nid endPt ≠ [] := by
    rw [nghDists]
    simpa using hne
  obtain ⟨hlt, hval⟩ := argminIdx_spec _ hdne
  have hlen : (nghDists dist primary nid endPt).length =
      (reachPrimary primary nid).length := by
    simp [nghDists]
  set k := argminIdx (nghDists dist primary nid endPt) with hk
  have hklt : k < (reachPrimary primary nid).length := by
    rw [← hlen]
    exact hlt
  refine ⟨(reachPrimary primary nid).getD k 0, ?_, ?_, ?_⟩
  · rw [List.getD_eq_getElem _ _ hklt]
    exact List.getElem_mem hklt
  · rw [nearestPt]
  · rw [← hval, nghDists]
    have hlt2 : k < ((reachPrimary primary nid).map
        (fun c => dist endPt ((clAt primary c).y, (clAt primary c).x))).length := by
      simpa using hklt
    rw [List.getD_eq_getElem _ _ hlt2, List.getElem_map,
      List.getD_eq_getElem _ _ hklt]

theorem snap_count_shift (dist : ℚ × ℚ → ℚ × ℚ → ℚ) (thr : ℚ)
    (primary : List CLRow) :
    ∀ (es : List (ℤ × ℤ)) (acc : (ℤ → Option (List (ℚ × ℚ))) × ℕ),
      (es.foldl (snapStep dist thr primary) acc).2 =
        acc.2 + (es.foldl (snapStep dist thr primary) (acc.1, 0)).2 := by
  intro es
  induction es with
  | nil => intro acc; simp
  | cons e es ih =>
      intro acc
      rw [List.foldl_cons, List.foldl_cons]
      rw [ih (snapStep dist thr primary acc e)]
      rw [ih (snapStep dist thr primary (acc.1, 0) e)]
      simp only [snapStep]
      omega

/-- C5: for a downstream edge whose two reaches both have geometries, the
Snapper leaves everything unchanged when the minimum of the four
endpoint-pair distances is below 1 m; a snapped edge extends only the
upstream geometry, by exactly one point — the downstream reach's owned
point nearest to the gap-side endpoint — and only under the snap
threshold; the nearest point attains the minimum distance among the
downstream reach's owned points; and `modified` counts exactly the
snapped edges. -/
theorem snap_endpoints_spec (dist : ℚ × ℚ → ℚ × ℚ → ℚ) (thr : ℚ)
    (primary : List CLRow) :
    (∀ (geom : ℤ → Option (List (ℚ × ℚ))) (e : ℤ × ℤ) g1 g2,
      geom e.1 = some g1 → geom e.2 = some g2 →
      (minGapPair (gapsOf dist g1 g2)).1 < 1 →
      snapOne dist thr primary geom e = (geom, false)) ∧
    (∀ (geom : ℤ → Option (List (ℚ × ℚ))) (e : ℤ × ℤ),
      (snapOne dist thr primary geom e).2 = false →
      (snapOne dist thr primary geom e).1 = geom) ∧
    (∀ (geom : ℤ → Option (List (ℚ × ℚ))) (e : ℤ × ℤ) g1 g2,
      geom e.1 = some g1 → geom e.2 = some g2 →
      (snapOne dist thr primary geom e).2 = true →
      ¬ (minGapPair (gapsOf dist g1 g2)).1 < 1 ∧
      reachPrimary primary e.2 ≠ [] ∧
      (∀ r, r ≠ e.1 → (snapOne dist thr primary geom e).1 r = geom r) ∧
      ((((minGapPair (gapsOf dist g1 g2)).2 = 0 ∨
          (minGapPair (gapsOf dist g1 g2)).2 = 1) ∧
        listMin (nghDists dist primary e.2
          ((g1.getLastD (0, 0)).2, (g1.getLastD (0, 0)).1)) < thr ∧
        (snapOne dist thr primary geom e).1 e.1 =
          some (g1 ++ [nearestPt dist primary e.2
            ((g1.getLastD (0, 0)).2, (g1.getLastD (0, 0)).1)])) ∨
       (¬ ((minGapPair (gapsOf dist g1 g2)).2 = 0 ∨
          (minGapPair (gapsOf dist g1 g2)).2 = 1) ∧
        listMin (nghDists dist primary e.2
          ((g1.headD (0, 0)).2, (g1.headD (0, 0)).1)) < thr ∧
        (snapOne dist thr primary geom e).1 e.1 =
          some (nearestPt dist primary e.2
            ((g1.headD (0, 0)).2, (g1.headD (0, 0)).1) :: g1)))) ∧
    (∀ (nid : ℤ) (endPt : ℚ × ℚ), reachPrimary primary nid ≠ [] →
      ∃ c ∈ reachPrimary primary nid,
        nearestPt dist primary nid endPt =
          ((clAt primary c).x, (clAt primary c).y) ∧
        dist endPt ((clAt primary c).y, (clAt primary c).x) =
          listMin (nghDists dist primary nid endPt)) ∧
    (∀ geom : ℤ → Option (List (ℚ × ℚ)),
      snapEndpoints dist thr primary geom [] = (geom, 0)) ∧
    (∀ (geom : ℤ → Option (List (ℚ × ℚ))) (e : ℤ × ℤ) (es : List (ℤ × ℤ)),
      (snapEndpoints dist thr primary geom (e :: es)).2 =
        (if (snapOne dist thr primary geom e).2 then 1 else 0) +
        (snapEndpoints dist thr primary
          (snapOne dist thr primary geom e).1 es).2) := by
  refine ⟨?_, ?_, ?_, nearestPt_spec dist primary, fun _ => rfl, ?_⟩
  · intro geom e g1 g2 h1 h2 hlt
    rw [snapOne, h1, h2]
    dsimp only
    rw [if_pos hlt]
  · intro geom e h
    rcases h1 : geom e.1 with _ | g1 <;> rcases h2 : geom e.2 with _ | g2 <;>
      rw [snapOne, h1, h2] at h ⊢ <;>
      dsimp only at h ⊢ <;>
      first
      | rfl
      | (split_ifs at h ⊢ <;> first | rfl | simp at h)
  · intro geom e g1 g2 h1 h2 hsnap
    rw [snapOne, h1, h2] at hsnap ⊢
    dsimp only at hsnap ⊢
    split_ifs at hsnap ⊢ with hmin hnid hlab hthr
    all_goals
      first
      | (simp at hsnap
         done)
      | (refine ⟨by assumption, by assumption,
            fun r hr => Function.update_noteq hr _ _, Or.inl ⟨?_, ?_, ?_⟩⟩ <;>
          first
          | assumption
          | (dsimp only
             rw [Function.update_same]))
      | (refine ⟨by assumption, by assumption,
            fun r hr => Function.update_noteq hr _ _, Or.inr ⟨?_, ?_, ?_⟩⟩ <;>
          first
          | assumption
          | (dsimp only
             rw [Function.update_same]))
  · intro geom e es
    rw [snapEndpoints, snapEndpoints, List.foldl_cons]
    rw [snap_count_shift dist thr primary es (snapStep dist thr primary (geom, 0) e)]
    simp only [snapStep]
    omega

/-- Snap witness data: reach 1 owns columns 0-1, reach 2 owns columns 2-3. -/
def wprimarySnap : List CLRow :=
  [⟨1, 0, 0, 1⟩, ⟨2, 1, 0, 1⟩, ⟨3, 5, 0, 2⟩, ⟨4, 6, 0, 2⟩]

def wgeomSnap : ℤ → Option (List (ℚ × ℚ)) := fun r =>
  if r = 1 then some [(0, 0), (1, 0)]
  else if r = 2 then some [(5, 0), (6, 0)] else none

/-- Distance table: 120 m between reach 1's far endpoint and reach 2's
first point, 1000 m everywhere else. -/
def wdistSnap : ℚ × ℚ → ℚ × ℚ → ℚ := fun a b =>
  if b.2 = 5 ∧ a.2 = 1 then 120 else 1000

/-- Witness for C5: a 120 m gap within the 500 m threshold is snapped by
appending reach 2's nearest owned point to reach 1's geometry, and the
modified count of the one-edge run is 1. -/
theorem snap_endpoints_spec_witness :
    ¬ (minGapPair (gapsOf wdistSnap [((0 : ℚ), (0 : ℚ)), (1, 0)]
      [((5 : ℚ), (0 : ℚ)), (6, 0)])).1 < 1 ∧
    (snapOne wdistSnap 500 wprimarySnap wgeomSnap (1, 2)).1 1 =
      some [((0 : ℚ), (0 : ℚ)), ((1 : ℚ), (0 : ℚ)), ((5 : ℚ), (0 : ℚ))] ∧
    (snapEndpoints wdistSnap 500 wprimarySnap wgeomSnap [(1, 2)]).2 = 1 := by
  obtain ⟨hm, hn, hloc, hor⟩ :=
    (snap_endpoints_spec wdistSnap 500 wprimarySnap).2.2.1 wgeomSnap (1, 2)
      [((0 : ℚ), (0 : ℚ)), (1, 0)] [((5 : ℚ), (0 : ℚ)), (6, 0)]
      (by decide) (by decide) (by decide)
  refine ⟨hm, ?_, ?_⟩
  · rcases hor with ⟨_, _, heq⟩ | ⟨hl, _, _⟩
    · rw [heq]
      decide
    · exact absurd (by decide) hl
  · have hrec := (snap_endpoints_spec wdistSnap 500 wprimarySnap).2.2.2.2.2
      wgeomSnap (1, 2) []
    rw [hrec]
    decide

/-! ## Revert of the OC reach split (revert_oc_reach_split.py)

The two DuckDB databases (`v17c` mutable, `v17b` read-only) are modelled
as record snapshots of the touched tables.  RTREE index drop/recreate is
index maintenance only and changes no row, so it is not part of the
state.  Diagnostic strings are modelled as structured errors carrying the
same data the f-strings interpolate. -/

def ORIGINAL_REACH : ℤ := 51111300061

def SPURIOUS_REACH : ℤ := 51111300391

def ORPHAN_REACHES : List ℤ := [51111300371, 51111300381]

def ALL_SPLIT_REACHES : List ℤ := SPURIOUS_REACH :: ORPHAN_REACHES

def NEIGHBOR_051 : ℤ := 51111300051

def NEIGHBOR_071 : ℤ := 51111300071

structure ReachRec where
  reach_id : ℤ
  n_rch_up : ℤ
  n_rch_down : ℤ
  x : ℚ
  y : ℚ
  x_min : ℚ
  x_max : ℚ
  y_min : ℚ
  y_max : ℚ
  reach_length : ℚ
  n_nodes : ℤ
  geom : Option (List (ℚ × ℚ))
deriving Repr, DecidableEq

structure CenterRow where
  cl_id : ℤ
  reach_id : ℤ
  region : String
deriving Repr, DecidableEq

structure NodeRow where
  node_id : ℤ
  reach_id : ℤ
  region : String
  x : ℚ
  y : ℚ
  dist_out : ℚ
  wse_obs_p50 : Option ℚ
deriving Repr, DecidableEq

structure SwordDB where
  reaches : List ReachRec
  centerlines : List CenterRow
  nodes : List NodeRow
  reach_topology : List (ℤ × ℤ)
  reach_swot_orbits : List ℤ
  reach_ice_flags : List ℤ
deriving Repr, DecidableEq

inductive PrecondError where
  | spuriousCount (n : ℕ)
  | orphanReachPresent (rid : ℤ) (n : ℕ)
  | orphanClMissing (rid : ℤ)
  | v17bClCount (n : ℕ)
  | v17bNodeCount (n : ℕ)
deriving Repr, DecidableEq

/-- The five checks of `precondition_checks`, appended in program order. -/
def precondition_checks (c b : SwordDB) : List PrecondError :=
  (let n := (c.reaches.filter (fun r => r.reach_id = SPURIOUS_REACH)).length
   if n ≠ 1 then [PrecondError.spuriousCount n] else []) ++
  (ORPHAN_REACHES.flatMap (fun rid =>
    let n := (c.reaches.filter (fun r => r.reach_id = rid)).length
    if n ≠ 0 then [PrecondError.orphanReachPresent rid n] else [])) ++
  (ORPHAN_REACHES.flatMap (fun rid =>
    if (c.centerlines.filter
        (fun cl => cl.reach_id = rid ∧ cl.region = "OC")).length = 0
    then [PrecondError.orphanClMissing rid] else [])) ++
  (let n := (b.centerlines.filter
      (fun cl => cl.reach_id = ORIGINAL_REACH ∧ cl.region = "OC")).length
   if n ≠ 586 then [PrecondError.v17bClCount n] else []) ++
  (let n := (b.nodes.filter
      (fun nd => nd.reach_id = ORIGINAL_REACH ∧ nd.region = "OC")).length
   if n ≠ 99 then [PrecondError.v17bNodeCount n] else [])

/-- Steps 2-8 of `execute`: the deletes, inserts and updates applied once
the preconditions hold. -/
def revertSteps (c b : SwordDB) : SwordDB :=
  let cls2 := c.centerlines.filter
    (fun cl => ¬ (cl.reach_id ∈ ALL_SPLIT_REACHES ∧ cl.region = "OC"))
  let nodes2 := c.nodes.filter
    (fun nd => ¬ (nd.reach_id ∈ ALL_SPLIT_REACHES ∧ nd.region = "OC"))
  let cls3 := (cls2.filter
      (fun cl => ¬ (cl.reach_id = ORIGINAL_REACH ∧ cl.region = "OC"))) ++
    b.centerlines.filter
      (fun cl => cl.reach_id = ORIGINAL_REACH ∧ cl.region = "OC")
  let existing_nids := (nodes2.filter
    (fun nd => nd.reach_id = ORIGINAL_REACH ∧ nd.region = "OC")).map
      (fun nd => nd.node_id)
  let nodes4 := nodes2 ++ b.nodes.filter
    (fun nd => nd.reach_id = ORIGINAL_REACH ∧ nd.region = "OC" ∧
      ¬ nd.node_id ∈ existing_nids)
  let orbits5 := c.reach_swot_orbits.filter (fun r => ¬ r = SPURIOUS_REACH)
  let ice5 := c.reach_ice_flags.filter (fun r => ¬ r = SPURIOUS_REACH)
  let topo5 := c.reach_topology.filter
    (fun p => ¬ (p.1 = SPURIOUS_REACH ∨ p.2 = SPURIOUS_REACH))
  let reaches5 := c.reaches.filter (fun r => ¬ r.reach_id = SPURIOUS_REACH)
  let reaches6 := reaches5.map (fun r =>
    if r.reach_id = NEIGHBOR_051 then { r with n_rch_up := 1 } else r)
  let reaches6b := reaches6.map (fun r =>
    if r.reach_id = NEIGHBOR_071 then { r with n_rch_down := 1 } else r)
  let reaches7 := match b.reaches.find? (fun v => v.reach_id = ORIGINAL_REACH) with
    | some v => reaches6b.map (fun (r : ReachRec) =>
        if r.reach_id = ORIGINAL_REACH then
          { r with
            x := v.x
            y := v.y
            x_min := v.x_min
            x_max := v.x_max
            y_min := v.y_min
            y_max := v.y_max
            reach_length := v.reach_length
            n_nodes := v.n_nodes }
        else r)
    | none => reaches6b
  let restoredNodes := (nodes4.filter
    (fun nd => nd.reach_id = ORIGINAL_REACH ∧ nd.region = "OC")).insertionSort
    (fun a b => b.dist_out ≤ a.dist_out)
  let reaches8 := reaches7.map (fun (r : ReachRec) =>
    if r.reach_id = ORIGINAL_REACH then
      { r with geom := some (restoredNodes.map (fun nd => (nd.x, nd.y))) }
    else r)
  { reaches := reaches8, centerlines := cls3, nodes := nodes4,
    reach_topology := topo5, reach_swot_orbits := orbits5,
    reach_ice_flags := ice5 }

/-- `execute`: abort before any write when a precondition fails. -/
def execute (c b : SwordDB) : Bool × SwordDB :=
  if precondition_checks c b ≠ [] then (false, c)
  else (true, revertSteps c b)

/-- C8: the destructive revert is atomic with respect to its precondition
check — whenever any precondition fails the run returns failure with the
v17c database untouched, and a successful run certifies the error list
was empty. -/
theorem revert_precondition_atomic (c b : SwordDB) :
    (precondition_checks c b ≠ [] → execute c b = (false, c)) ∧
    ((execute c b).1 = true → precondition_checks c b = []) := by
  constructor
  · intro h
    rw [execute, if_pos h]
  · intro h
    by_contra hc
    rw [execute, if_pos hc] at h
    simp at h

/-- Witness for C8: on empty databases the spurious-reach check fails
(count 0, not 1), so `execute` aborts without touching the state. -/
theorem revert_precondition_atomic_witness :
    precondition_checks ⟨[], [], [], [], [], []⟩ ⟨[], [], [], [], [], []⟩ ≠ [] ∧
    execute ⟨[], [], [], [], [], []⟩ ⟨[], [], [], [], [], []⟩ =
      (false, ⟨[], [], [], [], [], []⟩) := by
  refine ⟨by decide, ?_⟩
  exact (revert_precondition_atomic ⟨[], [], [], [], [], []⟩
    ⟨[], [], [], [], [], []⟩).1 (by decide)

/-! ## Full find_common_points loop and process_region (rebuild_reach_geometry.py)

The attribute table rows (`reaches.facc/wse/width`) and the sequential
common-flag updates of `find_common_points`, followed by the region
pipeline.  The DuckDB spatial `ST_Centroid` is external and passed as a
parameter; bbox columns are exact min/max over the coordinates. -/

structure AttrRow where
  reach_id : ℤ
  facc : ℚ
  wse : ℚ
  width : ℚ
deriving Repr, DecidableEq

/-- Python dict built in row order (`reach_facc[rid] = ...`), later rows
overwriting earlier ones; `.get(rid, -9999.0)` is `attrValues`' default. -/
def attrLookup (attrs : List AttrRow) (f : AttrRow → ℚ) (rid : ℤ) : Option ℚ :=
  (attrs.reverse.find? (fun a => a.reach_id = rid)).map f

def listMinZ : List ℤ → ℤ
  | [] => 0
  | x :: xs => xs.foldl min x

def listMaxZ : List ℤ → ℤ
  | [] => 0
  | x :: xs => xs.foldl max x

def argminIdxZ (l : List ℤ) : ℕ :=
  ((List.range l.length).filter (fun i => l.getD i 0 = listMinZ l)).headD 0

def argmaxIdxZ (l : List ℤ) : ℕ :=
  ((List.range l.length).filter (fun i => l.getD i 0 = listMaxZ l)).headD 0

/-- The deference check for one guest reach: whether its nearest endpoint
(min- or max-`cl_id` column, whichever is geodesically closer, ties to
the max side) is already flagged common. -/
def deferenceFlag (dist : ℚ × ℚ → ℚ × ℚ → ℚ) (primary : List CLRow)
    (common : ℕ → Bool) (pt : ℕ) (ngh_rid : ℤ) : Bool :=
  let r_indices := reachPrimary primary ngh_rid
  if r_indices = [] then false
  else
    let r_cl_ids := r_indices.map (fun i => (clAt primary i).cl_id)
    let mn := r_indices.getD (argminIdxZ r_cl_ids) 0
    let mx := r_indices.getD (argmaxIdxZ r_cl_ids) 0
    let d1 := dist ((clAt primary pt).y, (clAt primary pt).x)
      ((clAt primary mn).y, (clAt primary mn).x)
    let d2 := dist ((clAt primary pt).y, (clAt primary pt).x)
      ((clAt primary mx).y, (clAt primary mx).x)
    if d1 < d2 then common mn else common mx

/-- One iteration of the `for pt_idx in multi_pts` loop. -/
def classifyPoint (primary : List CLRow) (neighbors : List NghRow)
    (attrs : List AttrRow) (dist : ℚ × ℚ → ℚ × ℚ → ℚ)
    (common : ℕ → Bool) (pt : ℕ) : ℕ → Bool :=
  if common pt then common
  else
    let f := reachIdFun primary neighbors
    let ngh_rows := (([0, 1, 2, 3] : List ℕ).filter (fun rank => 0 < f rank pt))
    let nghs0 := ngh_rows.map (fun rank => f rank pt)
    let nghs := nghs0.filter (fun r =>
      decide (0 < r) &&
      (List.range primary.length).any (fun i => (clAt primary i).reach_id = r))
    if nghs = [] then common
    else
      let flag := common pt ::
        ((List.range nghs.length).drop 1).map
          (fun k => deferenceFlag dist primary common pt (nghs.getD k 0))
      if flag.any (fun b => b) then common
      else if dominanceCommon nghs (attrLookup attrs (fun a => a.facc))
          (attrLookup attrs (fun a => a.wse))
          (attrLookup attrs (fun a => a.width)) then
        fun i => if i = pt then true else common i
      else common

/-- `find_common_points`: fold the per-point classification over the
ascending list of ≥3-way junction columns, starting from the all-zero
common array. -/
def findCommonPoints (primary : List CLRow) (neighbors : List NghRow)
    (attrs : List AttrRow) (dist : ℚ × ℚ → ℚ × ℚ → ℚ) : ℕ → Bool :=
  let f := reachIdFun primary neighbors
  let multi := (List.range primary.length).filter
    (fun i => 2 < (([0, 1, 2, 3] : List ℕ).filter (fun rank => 0 < f rank i)).length)
  multi.foldl (fun common pt => classifyPoint primary neighbors attrs dist common pt)
    (fun _ => false)

/-! ### process_region and the dry-run path -/

structure RegionDB where
  centerlines : List CLRow
  centerline_neighbors : List NghRow
  reach_attrs : List AttrRow
  reach_topology_down : List (ℤ × ℤ)
  storedGeom : ℤ → Option (List (ℚ × ℚ))
  bbox : ℤ → Option (ℚ × ℚ × ℚ × ℚ × ℚ × ℚ)

structure RegionResult where
  updated : ℕ
  db : RegionDB
  nCommon : ℕ
  nBuilt : ℕ
  nSnapped : ℕ

/-- Number of reaches holding a built geometry (`len(geom)`). -/
def builtCount (cfg : BuilderCfg) : ℕ :=
  ((unqRch cfg.primary).filter
    (fun rid => ((buildGeometries cfg).1 rid).isSome)).length

/-- `write_geometries`: bulk geometry replace plus bbox/centroid
recompute for every reach that now has a geometry (`ST_X/ST_Y` of the
centroid, `ST_XMin/XMax/YMin/YMax` of the coordinates). -/
def writeGeometries (centroid : List (ℚ × ℚ) → ℚ × ℚ)
    (geomMap : ℤ → Option (List (ℚ × ℚ))) (db : RegionDB) : RegionDB :=
  let storedGeom2 : ℤ → Option (List (ℚ × ℚ)) := fun r =>
    match geomMap r with
    | some g => some g
    | none => db.storedGeom r
  { db with
    storedGeom := storedGeom2
    bbox := fun r =>
      match storedGeom2 r with
      | some g => some ((centroid g).1, (centroid g).2,
          listMin (g.map Prod.fst), listMax (g.map Prod.fst),
          listMin (g.map Prod.snd), listMax (g.map Prod.snd))
      | none => db.bbox r }

/-- `process_region`: load (the snapshot is the `RegionDB`), build
indexes, classify common points, build geometries, snap endpoints, and
either stop (dry run, returning 0 with nothing written) or write back. -/
def processRegion (dist : ℚ × ℚ → ℚ × ℚ → ℚ)
    (centroid : List (ℚ × ℚ) → ℚ × ℚ) (maxDist : ℚ) (region : String)
    (dryRun : Bool) (db : RegionDB) : RegionResult :=
  if db.centerlines.length = 0 then ⟨0, db, 0, 0, 0⟩
  else
    let common := findCommonPoints db.centerlines db.centerline_neighbors
      db.reach_attrs dist
    let nCommon := ((List.range db.centerlines.length).filter
      (fun i => common i)).length
    let cfg : BuilderCfg :=
      ⟨db.centerlines, db.centerline_neighbors, common, dist, maxDist, region⟩
    let geom := (buildGeometries cfg).1
    let nBuilt := builtCount cfg
    let snapped := snapEndpoints dist 500 db.centerlines geom
      db.reach_topology_down
    if dryRun then ⟨0, db, nCommon, nBuilt, snapped.2⟩
    else ⟨nBuilt, writeGeometries centroid snapped.1 db, nCommon, nBuilt,
      snapped.2⟩

/-- C9: under the dry-run flag a region run performs the whole
computation and reports the same counts as a real run (common points,
built geometries, snapped endpoints), but returns 0 updated rows and
leaves the stored geometries and derived bbox/centroid columns unchanged
for every reach. -/
theorem dry_run_no_write (dist : ℚ × ℚ → ℚ × ℚ → ℚ)
    (centroid : List (ℚ × ℚ) → ℚ × ℚ) (maxDist : ℚ) (region : String)
    (db : RegionDB) :
    (processRegion dist centroid maxDist region true db).db = db ∧
    (processRegion dist centroid maxDist region true db).updated = 0 ∧
    (∀ r, (processRegion dist centroid maxDist region true db).db.storedGeom r =
      db.storedGeom r) ∧
    (∀ r, (processRegion dist centroid maxDist region true db).db.bbox r =
      db.bbox r) ∧
    (processRegion dist centroid maxDist region true db).nCommon =
      (processRegion dist centroid maxDist region false db).nCommon ∧
    (processRegion dist centroid maxDist region true db).nBuilt =
      (processRegion dist centroid maxDist region false db).nBuilt ∧
    (processRegion dist centroid maxDist region true db).nSnapped =
      (processRegion dist centroid maxDist region false db).nSnapped := by
  by_cases h : db.centerlines.length = 0
  · rw [processRegion, if_pos h]
    rw [processRegion, if_pos h]
    exact ⟨rfl, rfl, fun r => rfl, fun r => rfl, rfl, rfl, rfl⟩
  · rw [processRegion, if_neg h]
    rw [processRegion, if_neg h]
    exact ⟨rfl, rfl, fun r => rfl, fun r => rfl, rfl, rfl, rfl⟩
